import Mathlib

/-!
Verification of the reliability core of the AnotherTaskManager repository.

The repository implements the server-side components (token verification
cache, idempotency store, change log and delta sync, notification outbox)
as a detailed design document under Spec/, while the client code
(frontend/src/api.js and the App variants) is shipped as JavaScript.
This file gives a shallow embedding of both: the client functions are
translated from the JavaScript source, and the server components are
modelled from the design document, as indicated in each doc comment.
-/

set_option maxHeartbeats 1600000

namespace TaskManager

/-! ## Change Log and Delta Sync (design document section 4.3) -/

namespace DeltaSync

/-- Modelled from the spec: a ChangeEvent row
`(id, org_id, event_type, subject_id nullable, payload_summary)`.
The `occurred_at` column plays no role in the sync algorithm and is omitted. -/
structure ChangeEvent where
  id : Nat
  orgId : Nat
  eventType : String
  subjectId : Option Nat
  payloadSummary : String
deriving DecidableEq

/-- Modelled from the spec: the opaque cursor is a versioned, server-chosen
token wrapping the last-seen event id.  We encode the ordinal in binary with
a version tag, matching the "tagged ordinal" shape the design suggests. -/
def natToBits : Nat → List Char
  | 0 => []
  | n + 1 =>
    (if (n + 1) % 2 = 1 then '1' else '0') :: natToBits ((n + 1) / 2)

/-- Inverse of `natToBits` on a little-endian bit string. -/
def bitsToNat : List Char → Option Nat
  | [] => some 0
  | c :: cs =>
    match bitsToNat cs with
    | none => none
    | some m =>
      if c = '1' then some (2 * m + 1)
      else if c = '0' then
        -- a leading zero bit is not a canonical encoding
        if cs = [] then none else some (2 * m)
      else none

/-- Modelled from the spec: wrap an ordinal into the opaque cursor string. -/
def encodeCursor (n : Nat) : String :=
  ⟨'v' :: '1' :: ':' :: natToBits n⟩

/-- Modelled from the spec: decode a cursor defensively; any string the
server cannot parse is treated as expired rather than crashing. -/
def decodeCursor (s : String) : Option Nat :=
  match s.data with
  | 'v' :: '1' :: ':' :: bits => bitsToNat bits
  | _ => none

/-- The retained-history filter: events of the org with id strictly greater
than the ordinal `c`. -/
def orgEventsAfter (log : List ChangeEvent) (org c : Nat) : List ChangeEvent :=
  log.filter (fun e => e.orgId == org && c < e.id)

inductive SyncErr where
  | cursorExpired
deriving DecidableEq

structure SyncResp where
  events : List ChangeEvent
  nextCursor : String
deriving DecidableEq

/-- Modelled from the spec: `GET sync/delta(cursor, limit)`.
`log` is the retained event log (post retention purge) and `horizon` the
retention horizon: every event with id at most `horizon` has been purged,
every retained event has a larger id.  An absent cursor (empty string)
means "from the beginning of retained history"; an unparsable cursor or an
ordinal older than retention yields `cursor_expired`; otherwise up to
`limit` events with id greater than the ordinal are returned in ascending
id order together with a `next_cursor` wrapping the last returned id (or
the request cursor itself when no events were returned). -/
def syncDelta (log : List ChangeEvent) (horizon org : Nat)
    (cursor : String) (limit : Nat) : Except SyncErr SyncResp :=
  match (if cursor = "" then some horizon else decodeCursor cursor) with
  | none => .error .cursorExpired
  | some c =>
    if c < horizon then .error .cursorExpired
    else
      .ok { events := (orgEventsAfter log org c).take limit
            nextCursor :=
              match ((orgEventsAfter log org c).take limit).getLast? with
              | some e => encodeCursor e.id
              | none => cursor }

/-- Well-formed retained log: ids strictly increase (append-only, never
renumbered) and every retained id is beyond the purge horizon. -/
def LogWF (log : List ChangeEvent) (horizon : Nat) : Prop :=
  log.Pairwise (fun a b => a.id < b.id) ∧ ∀ e ∈ log, horizon < e.id

instance (log : List ChangeEvent) (horizon : Nat) :
    Decidable (LogWF log horizon) := by
  unfold LogWF; infer_instance

/-- The client-side paging loop: call `sync/delta`, follow `next_cursor`,
stop on an empty page (or an error), concatenating the events seen. -/
def collectDelta (log : List ChangeEvent) (horizon org limit : Nat) :
    Nat → String → List ChangeEvent
  | 0, _ => []
  | fuel + 1, cursor =>
    match syncDelta log horizon org cursor limit with
    | .error _ => []
    | .ok r =>
      if r.events.isEmpty then []
      else r.events ++ collectDelta log horizon org limit fuel r.nextCursor

/-- A small concrete retained log used to exercise the sync theorems. -/
def demoLog : List ChangeEvent :=
  [{ id := 4, orgId := 7, eventType := "task.updated", subjectId := some 11,
     payloadSummary := "a" },
   { id := 5, orgId := 7, eventType := "tombstone", subjectId := some 12,
     payloadSummary := "b" },
   { id := 6, orgId := 8, eventType := "task.created", subjectId := none,
     payloadSummary := "c" },
   { id := 9, orgId := 7, eventType := "task.created", subjectId := some 13,
     payloadSummary := "d" }]

end DeltaSync

/-! ## Idempotency Store (design document section 4.2) -/

namespace Idem

/-- Modelled from the spec: the three-part unique key
`(owner_id, endpoint, idempotency_key)` of an IdempotencyRecord. -/
structure IdemKey where
  ownerId : Nat
  endpoint : String
  key : String
deriving DecidableEq

/-- Modelled from the spec: the value of an IdempotencyRecord: the canonical
payload hash and the stored response snapshot (none while the winning
request is still running the mutation). -/
structure IdemRecord where
  payloadHash : Nat
  response : Option Nat
deriving DecidableEq

/-- A request payload: named integer fields in the order the client sent
them. -/
def Payload := List (String × Nat)

def strHash (s : String) : Nat :=
  s.data.foldl (fun acc c => acc * 131 + c.toNat) 7

/-- Modelled from the spec: canonicalization gives the payload a stable
field ordering before hashing; fields are insertion-sorted by name. -/
def insertField (p : String × Nat) : List (String × Nat) → List (String × Nat)
  | [] => [p]
  | q :: qs => if p.1 < q.1 then p :: q :: qs else q :: insertField p qs

def canonicalize (payload : Payload) : List (String × Nat) :=
  payload.foldr insertField []

/-- Modelled from the spec: the canonical hash of a payload. -/
def canonicalHash (payload : Payload) : Nat :=
  (canonicalize payload).foldl
    (fun acc p => (acc * 1000003 + strHash p.1) * 65599 + p.2) 11

/-- The idempotency store plus the protected domain state; `mutations` is a
ghost counter of how many times a mutation function has executed. -/
structure IdemState where
  store : List (IdemKey × IdemRecord)
  domain : Nat
  mutations : Nat
deriving DecidableEq

def lookupRecord (store : List (IdemKey × IdemRecord)) (k : IdemKey) :
    Option IdemRecord :=
  (store.find? (fun kv => kv.1 == k)).map (fun kv => kv.2)

inductive IdemOutcome where
  | ok (resp : Nat)
  | inFlight
  | conflict
deriving DecidableEq

/-- Modelled from the spec: `execute_idempotent(owner_id, endpoint, key,
payload, mutation_fn)` in its sequential reading.  No record: the insert
wins immediately, the mutation runs and its response snapshot is stored.
Record with matching hash: replay the stored response verbatim (or report
the still-in-flight placeholder) without re-running the mutation.  Record
with a different hash: fail with idempotency_conflict and change nothing. -/
def executeIdempotent (st : IdemState) (k : IdemKey) (payload : Payload)
    (mutationFn : Nat → Nat × Nat) : IdemOutcome × IdemState :=
  match lookupRecord st.store k with
  | some r =>
    if r.payloadHash = canonicalHash payload then
      match r.response with
      | some resp => (.ok resp, st)
      | none => (.inFlight, st)
    else (.conflict, st)
  | none =>
    (.ok (mutationFn st.domain).2,
      { store := (k, { payloadHash := canonicalHash payload,
                       response := some (mutationFn st.domain).2 }) :: st.store,
        domain := (mutationFn st.domain).1,
        mutations := st.mutations + 1 })

/-- Phase of one of N concurrent identical write requests in the insert
race of spec section 4.2. -/
inductive ReqPhase where
  | start
  | won
  | ran (resp : Nat)
  | waiting
  | done (resp : Nat)
deriving DecidableEq

def ReqPhase.isDone : ReqPhase → Bool
  | .done _ => true
  | _ => false

/-- Global state of the race between N concurrent identical requests: the
shared record slot for their common key, the domain state, a ghost
mutation counter, and the per-request phases. -/
structure RaceState (n : Nat) where
  record : Option IdemRecord
  domain : Nat
  mutations : Nat
  procs : Fin n → ReqPhase

/-- Modelled from the spec: the atomic steps of the concurrent insert race.
The uniqueness constraint arbitrates the race: exactly one insert can win;
losers re-read and wait for the winner's stored response.  `h` is the
common canonical payload hash, `f` the common mutation function. -/
inductive RaceStep (h : Nat) (f : Nat → Nat × Nat) {n : Nat} :
    RaceState n → RaceState n → Prop
  | insertWin (s : RaceState n) (i : Fin n) :
      s.procs i = .start → s.record = none →
      RaceStep h f s
        { record := some { payloadHash := h, response := none },
          domain := s.domain, mutations := s.mutations,
          procs := Function.update s.procs i .won }
  | replay (s : RaceState n) (i : Fin n) (r : IdemRecord) (resp : Nat) :
      s.procs i = .start → s.record = some r → r.payloadHash = h →
      r.response = some resp →
      RaceStep h f s { s with procs := Function.update s.procs i (.done resp) }
  | insertLose (s : RaceState n) (i : Fin n) (r : IdemRecord) :
      s.procs i = .start → s.record = some r → r.payloadHash = h →
      r.response = none →
      RaceStep h f s { s with procs := Function.update s.procs i .waiting }
  | runMutation (s : RaceState n) (i : Fin n) :
      s.procs i = .won →
      RaceStep h f s
        { record := s.record, domain := (f s.domain).1,
          mutations := s.mutations + 1,
          procs := Function.update s.procs i (.ran (f s.domain).2) }
  | storeResponse (s : RaceState n) (i : Fin n) (r : IdemRecord) (resp : Nat) :
      s.procs i = .ran resp → s.record = some r →
      RaceStep h f s
        { record := some { payloadHash := r.payloadHash, response := some resp },
          domain := s.domain, mutations := s.mutations,
          procs := Function.update s.procs i (.done resp) }
  | pollDone (s : RaceState n) (i : Fin n) (r : IdemRecord) (resp : Nat) :
      s.procs i = .waiting → s.record = some r → r.response = some resp →
      RaceStep h f s { s with procs := Function.update s.procs i (.done resp) }

/-- All N requests still untouched, empty record slot. -/
def raceInit (n d0 : Nat) : RaceState n :=
  { record := none, domain := d0, mutations := 0, procs := fun _ => .start }

def RaceReachable (h : Nat) (f : Nat → Nat × Nat) (n d0 : Nat)
    (s : RaceState n) : Prop :=
  Relation.ReflTransGen (RaceStep h f) (raceInit n d0) s

/-- Every request has received a response. -/
def AllDone {n : Nat} (s : RaceState n) : Prop :=
  ∀ i, (s.procs i).isDone = true

/-- A request phase that holds no claim on the mutation. -/
def OnlyPassive (p : ReqPhase) : Prop := p = .start ∨ p = .waiting

/-- The race invariant: either nobody inserted yet, or one winner exists
(before or after running the mutation), or the response is stored and
everyone who finished saw exactly the stored response. -/
def RaceInv (h : Nat) (f : Nat → Nat × Nat) (d0 : Nat) {n : Nat}
    (s : RaceState n) : Prop :=
  (s.record = none ∧ (∀ i, s.procs i = .start) ∧
    s.mutations = 0 ∧ s.domain = d0)
  ∨ (s.record = some { payloadHash := h, response := none } ∧
      (∃ i, s.procs i = .won ∧ ∀ j, j ≠ i → OnlyPassive (s.procs j)) ∧
      s.mutations = 0 ∧ s.domain = d0)
  ∨ (s.record = some { payloadHash := h, response := none } ∧
      (∃ i, s.procs i = .ran (f d0).2 ∧ ∀ j, j ≠ i → OnlyPassive (s.procs j)) ∧
      s.mutations = 1 ∧ s.domain = (f d0).1)
  ∨ (s.record = some { payloadHash := h, response := some (f d0).2 } ∧
      (∀ i, OnlyPassive (s.procs i) ∨ s.procs i = .done (f d0).2) ∧
      s.mutations = 1 ∧ s.domain = (f d0).1)

/-- A concrete mutation function used in witnesses. -/
def fdemo : Nat → Nat × Nat := fun d => (d + 1, d * 10)

/-- A concrete run of the race with two concurrent identical requests. -/
def raceS0 : RaceState 2 := raceInit 2 5

def raceS1 : RaceState 2 :=
  { record := some { payloadHash := 42, response := none },
    domain := raceS0.domain, mutations := raceS0.mutations,
    procs := Function.update raceS0.procs 0 .won }

def raceS2 : RaceState 2 :=
  { raceS1 with procs := Function.update raceS1.procs 1 .waiting }

def raceS3 : RaceState 2 :=
  { record := raceS2.record, domain := (fdemo raceS2.domain).1,
    mutations := raceS2.mutations + 1,
    procs := Function.update raceS2.procs 0 (.ran (fdemo raceS2.domain).2) }

def raceS4 : RaceState 2 :=
  { record := some { payloadHash := 42, response := some 50 },
    domain := raceS3.domain, mutations := raceS3.mutations,
    procs := Function.update raceS3.procs 0 (.done 50) }

def raceS5 : RaceState 2 :=
  { raceS4 with procs := Function.update raceS4.procs 1 (.done 50) }

/-- Concrete inputs used by the sequential idempotency witnesses. -/
def kdemo : IdemKey := { ownerId := 1, endpoint := "/tasks", key := "k1" }

def p1demo : Payload := [("title", 1)]

def p2demo : Payload := [("title", 2)]

def st0demo : IdemState := { store := [], domain := 0, mutations := 0 }

end Idem

/-! ## Token Verification Cache (design document section 4.1) -/

namespace TokenVerify

/-- Modelled from the spec: the fixed allowlist of signing algorithms. -/
def allowedAlgs : List String := ["RS256", "ES256"]

/-- Modelled from the spec: a token header carrying the key id and the
declared signing algorithm. -/
structure TokenHeader where
  alg : String
  kid : String
deriving DecidableEq

/-- Modelled from the spec: the claims the verifier checks and returns. -/
structure TokenClaims where
  subject : String
  issuer : String
  audience : String
  scopes : List String
  expiry : Nat
  notBefore : Option Nat
deriving DecidableEq

/-- A bearer token: parsed header, claims and an abstract signature. -/
structure Token where
  header : TokenHeader
  claims : TokenClaims
  sig : Nat
deriving DecidableEq

/-- Modelled from the spec: an immutable snapshot of signing keys indexed
by kid. -/
structure VerifiedKeySet where
  keys : List (String × Nat)
  fetchedAt : Nat
deriving DecidableEq

inductive VerificationError where
  | invalidToken
  | invalidAudience
  | insufficientScope
deriving DecidableEq

/-- The verifier environment: an abstract signature predicate and the
expected issuer, audience and required scopes. -/
structure VerifyEnv where
  checkSig : Nat → Token → Bool
  expectedIss : String
  expectedAud : String
  requiredScopes : List String

/-- Modelled from the spec: verify against a given key set snapshot.  The
algorithm allowlist is checked first and rejects immediately, before the
kid lookup and before any signature check; then signature, iss, aud, exp,
nbf and scopes are checked in order. -/
def verify (env : VerifyEnv) (ks : VerifiedKeySet) (tok : Token) (now : Nat) :
    Except VerificationError TokenClaims :=
  if allowedAlgs.contains tok.header.alg then
    match ks.keys.lookup tok.header.kid with
    | none => .error .invalidToken
    | some key =>
      if env.checkSig key tok then
        if tok.claims.issuer = env.expectedIss then
          if tok.claims.audience = env.expectedAud then
            if now < tok.claims.expiry then
              if (match tok.claims.notBefore with
                  | some nbf => decide (now < nbf)
                  | none => false) then .error .invalidToken
              else
                if env.requiredScopes.all
                    (fun sc => tok.claims.scopes.contains sc) then
                  .ok tok.claims
                else .error .insufficientScope
            else .error .invalidToken
          else .error .invalidAudience
        else .error .invalidToken
      else .error .invalidToken
  else .error .invalidToken

/-- Modelled from the spec: the kid-miss path.  On an unknown kid trigger
exactly one refresh (`fetched` is the key set the single-flight fetch
produced, none when the fetch failed), replace the key set and retry
verification once; a kid still unknown after one refresh fails with
invalid_token.  The second component counts refreshes performed. -/
def verifyWithRefresh (env : VerifyEnv) (ks : VerifiedKeySet)
    (fetched : Option VerifiedKeySet) (tok : Token) (now : Nat) :
    Except VerificationError TokenClaims × Nat :=
  if allowedAlgs.contains tok.header.alg then
    match ks.keys.lookup tok.header.kid with
    | some _ => (verify env ks tok now, 0)
    | none =>
      match fetched with
      | none => (.error .invalidToken, 1)
      | some ks2 =>
        match ks2.keys.lookup tok.header.kid with
        | none => (.error .invalidToken, 1)
        | some _ => (verify env ks2 tok now, 1)
  else (.error .invalidToken, 0)

/-- A concrete token whose header declares a non-allowlisted algorithm but
whose kid is present in `ksDemo`. -/
def tokDemo : Token :=
  { header := { alg := "HS256", kid := "k1" },
    claims := { subject := "u1", issuer := "iss", audience := "aud",
                scopes := ["tasks.read"], expiry := 100, notBefore := none },
    sig := 0 }

def ksDemo : VerifiedKeySet := { keys := [("k1", 99)], fetchedAt := 0 }

def envDemo : VerifyEnv :=
  { checkSig := fun _ _ => true, expectedIss := "iss", expectedAud := "aud",
    requiredScopes := [] }

/-- A token with an allowlisted algorithm but a kid unknown to `ksDemo`. -/
def tokDemo2 : Token :=
  { header := { alg := "RS256", kid := "kX" },
    claims := { subject := "u1", issuer := "iss", audience := "aud",
                scopes := ["tasks.read"], expiry := 100, notBefore := none },
    sig := 0 }

end TokenVerify

/-! ## The token-based api client, translated from src/unnamed/part_006 -/

namespace TokenApi

/-- The JSON body the client reads from a response: its `access` and
`refresh` fields when present (none models a non-JSON body, for which
parseJsonBody yields null). -/
structure RespBody where
  access : Option String
  refresh : Option String
deriving DecidableEq

/-- An HTTP response as the client sees it: status plus parsed body. -/
structure MockResponse where
  status : Nat
  body : Option RespBody
deriving DecidableEq

/-- `response.ok`: status in the 2xx range. -/
def MockResponse.ok (r : MockResponse) : Bool :=
  decide (200 ≤ r.status) && decide (r.status < 300)

/-- One scripted network outcome: a resolved response or a rejected fetch
(thrown network error). -/
inductive FetchOutcome where
  | success (r : MockResponse)
  | netError
deriving DecidableEq

/-- Ghost tag recording which kind of endpoint a fetch call hit. -/
inductive FetchCall where
  | request
  | refresh
deriving DecidableEq

/-- Client-side state: the handler-stored tokens, a ghost count of
clearTokens invocations, the remaining scripted fetch outcomes, and the
ghost log of fetch calls already made. -/
structure ClientState where
  accessTok : String
  refreshTok : String
  cleared : Nat
  script : List FetchOutcome
  calls : List FetchCall
deriving DecidableEq

/-- Consume the next scripted outcome (an empty script rejects). -/
def doFetch (tag : FetchCall) (st : ClientState) :
    FetchOutcome × ClientState :=
  match st.script with
  | [] => (.netError, { st with calls := st.calls ++ [tag] })
  | o :: rest => (o, { st with script := rest, calls := st.calls ++ [tag] })

/-- `clearTokens()`: the auth handler drops the stored session. -/
def clearTokens (st : ClientState) : ClientState :=
  { st with accessTok := "", refreshTok := "", cleared := st.cleared + 1 }

/-- Translated from part_006 lines 60-98 (`refreshAccessToken`): no stored
refresh token clears and resolves falsy; a rejected fetch propagates as a
rejection (this variant has no try/catch); a non-2xx response or a body
without a non-empty `access` clears the session and resolves falsy;
otherwise the new tokens are stored and the access token is returned.
`.error ()` renders a rejected promise, `.ok ""` a falsy resolution. -/
def refreshAccessToken (st : ClientState) :
    Except Unit String × ClientState :=
  if st.refreshTok = "" then (.ok "", clearTokens st)
  else
    match doFetch .refresh st with
    | (.netError, st1) => (.error (), st1)
    | (.success r, st1) =>
      if r.ok = false ∨ (match r.body with
          | some b => b.access.getD ""
          | none => "") = "" then
        (.ok "", clearTokens st1)
      else
        (.ok (match r.body with
          | some b => b.access.getD ""
          | none => ""),
          { st1 with
            accessTok := (match r.body with
              | some b => b.access.getD ""
              | none => ""),
            refreshTok := (match r.body with
              | some b => b.refresh.getD st1.refreshTok
              | none => st1.refreshTok) })

/-- Translated from part_006 lines 100-140 (`send`): fetch the request; on
a 401 with retryOnAuthFailure and some credential present, refresh once
and, if the refresh produced a token, retry once with retryOnAuthFailure
false.  `retriesLeft` renders the retryOnAuthFailure flag (1 = true,
0 = false). -/
def send : Nat → ClientState → Except Unit MockResponse × ClientState
  | 0, st =>
    match doFetch .request st with
    | (.netError, st1) => (.error (), st1)
    | (.success r, st1) => (.ok r, st1)
  | m + 1, st =>
    match doFetch .request st with
    | (.netError, st1) => (.error (), st1)
    | (.success r, st1) =>
      if r.status = 401 then
        if st1.accessTok = "" ∧ st1.refreshTok = "" then (.ok r, st1)
        else
          match refreshAccessToken st1 with
          | (.error e, st2) => (.error e, st2)
          | (.ok access, st2) =>
            if access = "" then (.ok r, st2)
            else send m st2
      else (.ok r, st1)

/-- Count of refresh-endpoint fetches in the ghost call log. -/
def countRefresh (st : ClientState) : Nat :=
  st.calls.countP (fun c => c == FetchCall.refresh)

/-- Count of request-endpoint fetches in the ghost call log. -/
def countRequest (st : ClientState) : Nat :=
  st.calls.countP (fun c => c == FetchCall.request)

/-- Concrete state for the C10 counterexample: a stored refresh token and
a refresh call that throws a network error. -/
def stNetErr : ClientState :=
  { accessTok := "", refreshTok := "r", cleared := 0,
    script := [.netError], calls := [] }

/-- Concrete objects for the refresh-and-retry-once witness: an expired
request, a successful refresh and a still-401 retry. -/
def bodyDemo : RespBody := { access := some "na", refresh := some "nr" }

def r401Demo : MockResponse := { status := 401, body := none }

def rokDemo : MockResponse := { status := 200, body := some bodyDemo }

def stEmptyDemo : ClientState :=
  { accessTok := "", refreshTok := "", cleared := 0, script := [], calls := [] }

def stRetryDemo : ClientState :=
  { accessTok := "old", refreshTok := "rt", cleared := 0,
    script := [.success r401Demo, .success rokDemo, .success r401Demo],
    calls := [] }

/-- A 401 followed by a failing refresh response. -/
def stFailRetryDemo : ClientState :=
  { accessTok := "old", refreshTok := "rt", cleared := 0,
    script := [.success r401Demo, .success r401Demo], calls := [] }

/-- A refresh whose response is non-OK and carries no access token. -/
def stBadRespDemo : ClientState :=
  { accessTok := "", refreshTok := "rt", cleared := 0,
    script := [.success r401Demo], calls := [] }

end TokenApi

/-! ## The cookie-session api client, translated from frontend/src/api.js -/

namespace CookieApi

/-- One scripted network outcome for the cookie client: a response with its
`ok` flag and the csrfToken the server handed back, or a rejected fetch. -/
inductive CFetchOutcome where
  | success (ok : Bool) (csrfToken : String)
  | netError
deriving DecidableEq

/-- Ghost tag for the endpoint a fetch call hit. -/
inductive CFetchCall where
  | csrf
  | refresh
deriving DecidableEq

/-- Cookie-client state: the csrftoken cookie, a ghost count of clearTokens
invocations, the remaining scripted outcomes and the ghost call log. -/
structure CState where
  csrfCookie : String
  cleared : Nat
  script : List CFetchOutcome
  calls : List CFetchCall
deriving DecidableEq

/-- Consume the next scripted outcome (an empty script rejects). -/
def doFetch (tag : CFetchCall) (st : CState) : CFetchOutcome × CState :=
  match st.script with
  | [] => (.netError, { st with calls := st.calls ++ [tag] })
  | o :: rest => (o, { st with script := rest, calls := st.calls ++ [tag] })

/-- `clearTokens()` of the cookie client: drop the stored session. -/
def clearTokens (st : CState) : CState :=
  { st with cleared := st.cleared + 1 }

/-- Translated from frontend/src/api.js lines 47-75 (`ensureCsrfCookie`):
reuse an existing csrftoken cookie, otherwise fetch the CSRF endpoint; a
rejected fetch or a non-OK response throws. -/
def ensureCsrfCookie (st : CState) : Except Unit String × CState :=
  if st.csrfCookie = "" then
    match doFetch .csrf st with
    | (.netError, st1) => (.error (), st1)
    | (.success ok tokv, st1) =>
      if ok = false then (.error (), st1)
      else (.ok tokv, { st1 with csrfCookie := tokv })
  else (.ok st.csrfCookie, st)

/-- Translated from frontend/src/api.js lines 77-115 (`refreshAccessToken`,
cookie-session client): the whole body runs inside try/catch, so any
thrown step (CSRF failure or a rejected refresh fetch) is caught, the
session is cleared and false is returned; a non-OK refresh response also
clears and returns false; an OK refresh response returns true without
clearing. -/
def refreshAccessToken (st : CState) : Bool × CState :=
  match ensureCsrfCookie st with
  | (.error _, st1) => (false, clearTokens st1)
  | (.ok _, st1) =>
    match doFetch .refresh st1 with
    | (.netError, st2) => (false, clearTokens st2)
    | (.success ok _, st2) =>
      if ok = false then (false, clearTokens st2)
      else (true, st2)

/-- Concrete cookie-client states exercising every refresh failure kind. -/
def cCsrfNetDemo : CState :=
  { csrfCookie := "", cleared := 0, script := [.netError], calls := [] }

def cCsrfBadDemo : CState :=
  { csrfCookie := "", cleared := 0, script := [.success false "t"],
    calls := [] }

def cRefreshNetDemo : CState :=
  { csrfCookie := "c", cleared := 0, script := [.netError], calls := [] }

def cRefreshBadDemo : CState :=
  { csrfCookie := "c", cleared := 0, script := [.success false ""],
    calls := [] }

def cRefreshOkDemo : CState :=
  { csrfCookie := "c", cleared := 0, script := [.success true ""],
    calls := [] }

end CookieApi

/-! ## Single-flight refresh coordination: the module-level refreshPromise
shared by frontend/src/api.js and src/unnamed/part_006 -/

namespace SingleFlight

/-- State of the refreshPromise protocol: the refresh promises created so
far in creation order (true = settled), the current value of the
refreshPromise module variable (an index into `promises`), and a ghost
count of refresh network calls issued. -/
structure SFState where
  promises : List Bool
  inFlight : Option Nat
  fetches : Nat
deriving DecidableEq

inductive SFLabel where
  | callJoin (p : Nat)
  | callNew (p : Nat)
  | settle (p : Nat)
  | clearVar (p : Nat)
deriving DecidableEq

/-- Translated from the refreshAccessToken control flow of
frontend/src/api.js lines 77-115 and part_006 lines 60-98: a caller that
finds refreshPromise set returns that same promise and issues no fetch
(callJoin); a caller that finds it null creates one promise, issues one
network call and stores the promise (callNew); the promise settles when
its network call completes (settle); the creator's finally block nulls the
variable, and it runs only after the creator's own await, hence only after
that promise settled (clearVar). -/
inductive SFStep : SFLabel → SFState → SFState → Prop
  | callJoin (s : SFState) (p : Nat) :
      s.inFlight = some p →
      SFStep (.callJoin p) s s
  | callNew (s : SFState) :
      s.inFlight = none →
      SFStep (.callNew s.promises.length) s
        { promises := s.promises ++ [false],
          inFlight := some s.promises.length,
          fetches := s.fetches + 1 }
  | settle (s : SFState) (p : Nat) :
      s.promises.get? p = some false →
      SFStep (.settle p) s { s with promises := s.promises.set p true }
  | clearVar (s : SFState) (p : Nat) :
      s.inFlight = some p → s.promises.get? p = some true →
      SFStep (.clearVar p) s { s with inFlight := none }

/-- Module load: no promise, no fetch. -/
def sfInit : SFState := { promises := [], inFlight := none, fetches := 0 }

def SFReachable (s : SFState) : Prop :=
  Relation.ReflTransGen (fun a b => ∃ lab, SFStep lab a b) sfInit s

/-- The single-flight invariant: one fetch per promise; when the variable
is clear every promise has settled; when it holds promise p, p is the most
recently created promise and all earlier ones have settled. -/
def SFInv (s : SFState) : Prop :=
  s.fetches = s.promises.length ∧
  (s.inFlight = none → ∀ b ∈ s.promises, b = true) ∧
  (∀ p, s.inFlight = some p →
    p + 1 = s.promises.length ∧ ∀ b ∈ s.promises.take p, b = true)

/-- The unsettled (in-flight) refresh count. -/
def unsettledCount (s : SFState) : Nat :=
  (s.promises.filter (fun b => !b)).length

/-- Concrete protocol states for the single-flight witness. -/
def sfS1 : SFState := { promises := [false], inFlight := some 0, fetches := 1 }

def sfS2 : SFState := { promises := [true], inFlight := some 0, fetches := 1 }

def sfS3 : SFState := { promises := [true], inFlight := none, fetches := 1 }

def sfS4 : SFState :=
  { promises := [true, false], inFlight := some 1, fetches := 2 }

end SingleFlight

/-! ## The live-sync loop and its opaque cursor, translated from
src/unnamed/part_003 runLiveSyncLoop and api.js waitForTaskChanges -/

namespace LiveSync

/-- The JSON value found in the `cursor` field of a changes response, as
the client inspects it: a string, or anything else. -/
inductive JsVal where
  | str (s : String)
  | other
deriving DecidableEq

structure ChangesResp where
  changed : Bool
  cursor : JsVal
deriving DecidableEq

/-- Translated from part_003 runLiveSyncLoop (the
`typeof response?.cursor === 'string' && response.cursor` guard): the
stored cursor is replaced only when the response carries a non-empty
string cursor, and then by that string verbatim. -/
def updateCursor (cur : String) (resp : ChangesResp) : String :=
  match resp.cursor with
  | .str s => if s = "" then cur else s
  | .other => cur

/-- The cursor the loop holds after processing a sequence of responses,
starting from `cur` (the loop starts from the empty cursor). -/
def cursorAfter (cur : String) : List ChangesResp → String
  | [] => cur
  | r :: rs => cursorAfter (updateCursor cur r) rs

/-- Translated from api.js waitForTaskChanges: the query parameter list
handed to URLSearchParams: timeout and poll settings, plus the cursor
verbatim, omitted when empty.  URL-encoding happens only at serialization
inside URLSearchParams, outside the client code. -/
def changesQueryParams (cursor : String) (timeoutSeconds pollIntervalMs : Nat) :
    List (String × String) :=
  [("timeout_seconds", toString timeoutSeconds),
   ("poll_interval_ms", toString pollIntervalMs)] ++
  (if cursor = "" then [] else [("cursor", cursor)])

/-- The non-empty string cursors a response sequence handed the client. -/
def serverCursors (rs : List ChangesResp) : List String :=
  rs.filterMap (fun r =>
    match r.cursor with
    | .str s => if s = "" then none else some s
    | .other => none)

/-- Rename every cursor string in a response by `f` (used to state that
the client is oblivious to the cursor's internal structure). -/
def mapCursorResp (f : String → String) (r : ChangesResp) : ChangesResp :=
  { changed := r.changed,
    cursor := match r.cursor with
      | .str s => .str (f s)
      | .other => .other }

/-- A concrete response sequence for the witness. -/
def demoResps : List ChangesResp :=
  [{ changed := true, cursor := .str "c1" },
   { changed := false, cursor := .other },
   { changed := true, cursor := .str "" },
   { changed := true, cursor := .str "c2" }]

end LiveSync

/-! ## Notification Outbox (design document section 4.4) -/

namespace Outbox

inductive TaskState where
  | pending
  | leased
  | sent
  | failed
  | cancelled
deriving DecidableEq

/-- Modelled from the spec: one DeliveryTask row.  `leaseToken` renders the
lease token of spec section 5 (incremented on every successful claim and
checked by complete); `sentBy` is a ghost field recording which worker
marked the task sent.  `device_id`, `dedupe_key` and `payload` do not
influence the claim/complete protocol of a single task and are omitted. -/
structure TaskRecord where
  state : TaskState
  attempts : Nat
  lockedBy : Option Nat
  lockedUntil : Option Nat
  leaseToken : Nat
  availableAt : Nat
  sentBy : Option Nat
deriving DecidableEq

structure OutboxState where
  task : TaskRecord
  now : Nat
deriving DecidableEq

inductive OLabel where
  | tick
  | claim (w : Nat)
  | completeSuccess (w tok : Nat)
  | completeRetry (w tok : Nat)
  | completeExhausted (w tok : Nat)
  | completeDead (w tok : Nat)
  | cancel
deriving DecidableEq

/-- Modelled from the spec: the atomic transitions of one DeliveryTask
under concurrently polling workers.  claim is the optimistic conditional
update: it succeeds only on a pending task that is available, or on a
leased task whose lease has expired (an abandoned lease), and installs a
fresh lease token.  The complete transitions require the caller to still
hold the lease (matching worker and lease token); a mismatching complete
is a no-op and therefore simply absent from the relation.  cancel
supersedes a pending or leased task regardless of the lease. -/
inductive OStep (leaseDur ceiling : Nat) (backoff : Nat → Nat) :
    OLabel → OutboxState → OutboxState → Prop
  | tick (s : OutboxState) :
      OStep leaseDur ceiling backoff .tick s { s with now := s.now + 1 }
  | claim (s : OutboxState) (w : Nat) :
      ((s.task.state = .pending ∧ s.task.availableAt ≤ s.now) ∨
        (s.task.state = .leased ∧
          ∃ u, s.task.lockedUntil = some u ∧ u ≤ s.now)) →
      OStep leaseDur ceiling backoff (.claim w) s
        { s with task :=
          { s.task with
            state := .leased, lockedBy := some w,
            lockedUntil := some (s.now + leaseDur),
            leaseToken := s.task.leaseToken + 1 } }
  | completeSuccess (s : OutboxState) (w tok : Nat) :
      s.task.state = .leased → s.task.lockedBy = some w →
      s.task.leaseToken = tok →
      OStep leaseDur ceiling backoff (.completeSuccess w tok) s
        { s with task :=
          { s.task with
            state := .sent, sentBy := some w,
            lockedBy := none, lockedUntil := none } }
  | completeRetry (s : OutboxState) (w tok : Nat) :
      s.task.state = .leased → s.task.lockedBy = some w →
      s.task.leaseToken = tok → s.task.attempts + 1 < ceiling →
      OStep leaseDur ceiling backoff (.completeRetry w tok) s
        { s with task :=
          { s.task with
            state := .pending, attempts := s.task.attempts + 1,
            lockedBy := none, lockedUntil := none,
            availableAt := s.now + backoff (s.task.attempts + 1) } }
  | completeExhausted (s : OutboxState) (w tok : Nat) :
      s.task.state = .leased → s.task.lockedBy = some w →
      s.task.leaseToken = tok → ¬ s.task.attempts + 1 < ceiling →
      OStep leaseDur ceiling backoff (.completeExhausted w tok) s
        { s with task :=
          { s.task with
            state := .failed, attempts := s.task.attempts + 1,
            lockedBy := none, lockedUntil := none } }
  | completeDead (s : OutboxState) (w tok : Nat) :
      s.task.state = .leased → s.task.lockedBy = some w →
      s.task.leaseToken = tok →
      OStep leaseDur ceiling backoff (.completeDead w tok) s
        { s with task :=
          { s.task with
            state := .failed,
            lockedBy := none, lockedUntil := none } }
  | cancel (s : OutboxState) :
      s.task.state = .pending ∨ s.task.state = .leased →
      OStep leaseDur ceiling backoff .cancel s
        { s with task := { s.task with state := .cancelled } }

/-- The terminal task states. -/
def terminal : TaskState → Bool
  | .sent => true
  | .failed => true
  | .cancelled => true
  | _ => false

/-- One optional step: a labelled transition or a stutter. -/
def OStepOpt (leaseDur ceiling : Nat) (backoff : Nat → Nat) :
    Option OLabel → OutboxState → OutboxState → Prop
  | some a, s, s2 => OStep leaseDur ceiling backoff a s s2
  | none, s, s2 => s2 = s

/-- A freshly enqueued DeliveryTask. -/
def initTask (a0 : Nat) : TaskRecord :=
  { state := .pending, attempts := 0, lockedBy := none, lockedUntil := none,
    leaseToken := 0, availableAt := a0, sentBy := none }

/-- An infinite run of the outbox: at every index either the labelled
transition fires or the state stutters. -/
def IsRun (leaseDur ceiling : Nat) (backoff : Nat → Nat)
    (tr : Nat → OutboxState) (lab : Nat → Option OLabel) : Prop :=
  ∀ i, OStepOpt leaseDur ceiling backoff (lab i) (tr i) (tr (i + 1))

/-- The per-task run invariant: a non-terminal task has used at most the
retry ceiling, and a held lock always carries a lease deadline. -/
def InvT (ceiling : Nat) (s : OutboxState) : Prop :=
  (terminal s.task.state = false → s.task.attempts ≤ ceiling) ∧
  (s.task.lockedBy.isSome → s.task.lockedUntil.isSome)

/-- The fairness/progress hypothesis rendering "workers keep polling and
complete what they claim, with bounded retries": from any non-terminal
instant, some later effective step either makes the task terminal or
increments its attempts counter. -/
def Progress (tr : Nat → OutboxState) : Prop :=
  ∀ i, terminal (tr i).task.state = false →
    ∃ j, i ≤ j ∧ (terminal (tr (j + 1)).task.state = true ∨
      (tr j).task.attempts < (tr (j + 1)).task.attempts)

/-- A concrete run for the witness: claim then successful delivery, then
the task rests in its terminal state forever. -/
def demoS0 : OutboxState := { task := initTask 0, now := 0 }

def demoS1 : OutboxState :=
  { task := { state := .leased, attempts := 0, lockedBy := some 3,
              lockedUntil := some 5, leaseToken := 1, availableAt := 0,
              sentBy := none }, now := 0 }

def demoS2 : OutboxState :=
  { task := { state := .sent, attempts := 0, lockedBy := none,
              lockedUntil := none, leaseToken := 1, availableAt := 0,
              sentBy := some 3 }, now := 0 }

def demoRun : Nat → OutboxState
  | 0 => demoS0
  | 1 => demoS1
  | _ + 2 => demoS2

def demoLab : Nat → Option OLabel
  | 0 => some (.claim 3)
  | 1 => some (.completeSuccess 3 1)
  | _ + 2 => none

end Outbox

end TaskManager

namespace TaskManager

namespace DeltaSync

theorem bitsToNat_natToBits (n : Nat) : bitsToNat (natToBits n) = some n := by
  induction n using Nat.strong_induction_on with
  | _ n ih =>
    match n with
    | 0 => simp [natToBits, bitsToNat]
    | m + 1 =>
      have hdiv : (m + 1) / 2 < m + 1 := Nat.div_lt_self (Nat.succ_pos m) (by omega)
      have ihd := ih ((m + 1) / 2) hdiv
      rw [natToBits]
      by_cases hpar : (m + 1) % 2 = 1
      · rw [if_pos hpar]
        simp only [bitsToNat, ihd]
        rw [if_pos trivial]
        congr 1
        omega
      · have hdpos : 0 < (m + 1) / 2 := by omega
        have hne : natToBits ((m + 1) / 2) ≠ [] := by
          intro hnil
          rw [hnil] at ihd
          rw [show bitsToNat [] = some 0 from rfl] at ihd
          have := Option.some.inj ihd
          omega
        rw [if_neg hpar]
        simp only [bitsToNat, ihd]
        rw [if_pos trivial, if_neg hne]
        exact congrArg some (by omega)

theorem decodeCursor_encodeCursor (n : Nat) :
    decodeCursor (encodeCursor n) = some n := by
  simp [decodeCursor, encodeCursor, bitsToNat_natToBits]

theorem encodeCursor_ne_empty (n : Nat) : encodeCursor n ≠ "" := by
  intro h
  have : (encodeCursor n).data = ("" : String).data := by rw [h]
  simp [encodeCursor] at this

theorem decodeCursor_empty : decodeCursor "" = none := rfl

theorem mem_orgEventsAfter {log : List ChangeEvent} {org c : Nat} {e : ChangeEvent} :
    e ∈ orgEventsAfter log org c ↔ e ∈ log ∧ e.orgId = org ∧ c < e.id := by
  simp [orgEventsAfter, List.mem_filter, Bool.and_eq_true, beq_iff_eq,
    decide_eq_true_eq, and_assoc]

theorem mem_of_getLast?_eq_some {α : Type} {l : List α} {e : α}
    (hl : l.getLast? = some e) : e ∈ l := by
  obtain ⟨h, rfl⟩ := List.mem_getLast?_eq_getLast (Option.mem_def.mpr hl)
  exact List.getLast_mem h

theorem le_getLast_of_sorted :
    ∀ (l : List ChangeEvent), l.Pairwise (fun a b => a.id < b.id) →
      ∀ e, l.getLast? = some e → ∀ a ∈ l, a.id ≤ e.id := by
  intro l
  induction l with
  | nil => intro _ e he; simp at he
  | cons x xs ih =>
    intro hs e hlast a ha
    obtain ⟨hx, hxs⟩ := List.pairwise_cons.mp hs
    cases xs with
    | nil =>
      rw [List.getLast?_singleton] at hlast
      obtain rfl : x = e := Option.some.inj hlast
      rcases List.mem_singleton.mp ha with rfl
      exact Nat.le_refl _
    | cons y ys =>
      rw [List.getLast?_cons_cons] at hlast
      have hemem : e ∈ y :: ys := mem_of_getLast?_eq_some hlast
      rcases List.mem_cons.mp ha with rfl | hmem
      · exact Nat.le_of_lt (hx e hemem)
      · exact ih hxs e hlast a hmem

theorem filter_gt_getLast_take (l : List ChangeEvent)
    (hs : l.Pairwise (fun a b => a.id < b.id)) (n : Nat) (e : ChangeEvent)
    (hl : (l.take n).getLast? = some e) :
    l.filter (fun a => decide (e.id < a.id)) = l.drop n := by
  have hsl : ((l.take n) ++ (l.drop n)).Pairwise (fun a b => a.id < b.id) := by
    rw [List.take_append_drop]; exact hs
  obtain ⟨hs1, _, hcross⟩ := List.pairwise_append.mp hsl
  have hemem : e ∈ l.take n := mem_of_getLast?_eq_some hl
  have h1 : (l.take n).filter (fun a => decide (e.id < a.id)) = [] := by
    rw [List.filter_eq_nil_iff]
    intro a ha
    simp only [decide_eq_true_eq]
    have := le_getLast_of_sorted _ hs1 e hl a ha
    omega
  have h2 : (l.drop n).filter (fun a => decide (e.id < a.id)) = l.drop n := by
    rw [List.filter_eq_self]
    intro a ha
    simp only [decide_eq_true_eq]
    exact hcross e hemem a ha
  conv_lhs => rw [← List.take_append_drop n l]
  rw [List.filter_append, h1, h2, List.nil_append]

theorem orgEventsAfter_filter_gt (log : List ChangeEvent) (org c m : Nat)
    (hcm : c ≤ m) :
    (orgEventsAfter log org c).filter (fun a => decide (m < a.id)) =
      orgEventsAfter log org m := by
  unfold orgEventsAfter
  rw [List.filter_filter]
  apply List.filter_congr
  intro e _
  rcases Nat.lt_or_ge m e.id with h2 | h2
  · have h3 : c < e.id := Nat.lt_of_le_of_lt hcm h2
    simp [h2, h3]
  · have h2n : ¬ m < e.id := Nat.not_lt.mpr h2
    simp [h2n]

theorem syncDelta_ok (log : List ChangeEvent) (horizon org limit : Nat)
    (cursor : String) (c : Nat)
    (hdec : decodeCursor cursor = some c) (hc : horizon ≤ c) :
    syncDelta log horizon org cursor limit =
      .ok { events := (orgEventsAfter log org c).take limit
            nextCursor :=
              match ((orgEventsAfter log org c).take limit).getLast? with
              | some e => encodeCursor e.id
              | none => cursor } := by
  have hcur_ne : cursor ≠ "" := by
    intro h
    rw [h, decodeCursor_empty] at hdec
    exact Option.noConfusion hdec
  unfold syncDelta
  rw [if_neg hcur_ne, hdec]
  exact if_neg (Nat.not_lt.mpr hc)

theorem collectDelta_eq (log : List ChangeEvent) (horizon org limit : Nat)
    (hwf : LogWF log horizon) (hlim : 1 ≤ limit) :
    ∀ (fuel : Nat) (cursor : String) (c : Nat),
      decodeCursor cursor = some c → horizon ≤ c →
      (orgEventsAfter log org c).length < fuel →
      collectDelta log horizon org limit fuel cursor = orgEventsAfter log org c := by
  intro fuel
  induction fuel with
  | zero =>
    intro cursor c _ _ hlen
    exact absurd hlen (Nat.not_lt_zero _)
  | succ fuel ih =>
    intro cursor c hdec hc hlen
    rw [collectDelta, syncDelta_ok log horizon org limit cursor c hdec hc]
    by_cases hF : orgEventsAfter log org c = []
    · simp [hF]
    · have hP : (orgEventsAfter log org c).take limit ≠ [] := by
        rw [Ne, List.take_eq_nil_iff]
        push_neg
        exact ⟨by omega, hF⟩
      have hlast := List.getLast?_eq_getLast_of_ne_nil hP
      set e := ((orgEventsAfter log org c).take limit).getLast hP with he_def
      have hPmem : e ∈ (orgEventsAfter log org c).take limit :=
        mem_of_getLast?_eq_some hlast
      have hFmem : e ∈ orgEventsAfter log org c := List.take_subset _ _ hPmem
      have hce : c < e.id := (mem_orgEventsAfter.mp hFmem).2.2
      have hhe : horizon < e.id := hwf.2 e (mem_orgEventsAfter.mp hFmem).1
      have hFsorted : (orgEventsAfter log org c).Pairwise (fun a b => a.id < b.id) :=
        hwf.1.filter _
      have hdrop : orgEventsAfter log org e.id = (orgEventsAfter log org c).drop limit := by
        rw [← orgEventsAfter_filter_gt log org c e.id (Nat.le_of_lt hce)]
        exact filter_gt_getLast_take _ hFsorted limit e hlast
      have hlen2 : (orgEventsAfter log org e.id).length < fuel := by
        rw [hdrop, List.length_drop]
        have hFpos : 0 < (orgEventsAfter log org c).length := List.length_pos.mpr hF
        omega
      have hrec := ih (encodeCursor e.id) e.id (decodeCursor_encodeCursor e.id)
        (Nat.le_of_lt hhe) hlen2
      rw [hlast]
      have hPne : ((orgEventsAfter log org c).take limit).isEmpty = false := by
        rw [List.isEmpty_eq_false_iff_exists_mem]
        exact ⟨e, hPmem⟩
      simp only [hPne, Bool.false_eq_true, if_false, hrec]
      rw [hdrop]
      exact List.take_append_drop limit _

/-- Claim C3: for a valid (non-expired) cursor decoding to ordinal c and a
limit, sync/delta returns at most limit events of the org, all with id
strictly greater than c, sorted by id ascending, with next_cursor wrapping
the last returned id (or the request cursor when no events are returned);
and paging with each next_cursor until an empty result yields the full,
gap-free, order-preserving event sequence of the org after c. -/
theorem syncDelta_page_and_roundtrip
    (log : List ChangeEvent) (horizon org limit c : Nat) (cursor : String)
    (hwf : LogWF log horizon) (hdec : decodeCursor cursor = some c)
    (hc : horizon ≤ c) (hlim : 1 ≤ limit) :
    (∃ r : SyncResp, syncDelta log horizon org cursor limit = .ok r ∧
      r.events = (orgEventsAfter log org c).take limit ∧
      r.events.length ≤ limit ∧
      (∀ e ∈ r.events, e.orgId = org ∧ c < e.id) ∧
      r.events.Pairwise (fun a b => a.id < b.id) ∧
      ((r.events = [] ∧ r.nextCursor = cursor) ∨
        (∃ e, r.events.getLast? = some e ∧ r.nextCursor = encodeCursor e.id))) ∧
    (∀ fuel, (orgEventsAfter log org c).length < fuel →
      collectDelta log horizon org limit fuel cursor = orgEventsAfter log org c) := by
  constructor
  · refine ⟨_, syncDelta_ok log horizon org limit cursor c hdec hc, rfl, ?_, ?_, ?_, ?_⟩
    · exact List.length_take_le _ _
    · intro e he
      have := mem_orgEventsAfter.mp (List.take_subset _ _ he)
      exact ⟨this.2.1, this.2.2⟩
    · exact List.Pairwise.sublist (List.take_sublist _ _) (hwf.1.filter _)
    · rcases hP : ((orgEventsAfter log org c).take limit).getLast? with _ | e
      · left
        exact ⟨List.getLast?_eq_none_iff.mp hP, rfl⟩
      · right
        exact ⟨e, rfl, rfl⟩
  · intro fuel hfl
    exact collectDelta_eq log horizon org limit hwf hlim fuel cursor c hdec hc hfl

/-- Witness for C3 on a concrete log, cursor and limit. -/
theorem syncDelta_page_and_roundtrip_witness :
    (LogWF demoLog 3 ∧ decodeCursor (encodeCursor 4) = some 4 ∧ 3 ≤ 4 ∧ 1 ≤ 2) ∧
    ((∃ r : SyncResp, syncDelta demoLog 3 7 (encodeCursor 4) 2 = .ok r ∧
      r.events = (orgEventsAfter demoLog 7 4).take 2 ∧
      r.events.length ≤ 2 ∧
      (∀ e ∈ r.events, e.orgId = 7 ∧ 4 < e.id) ∧
      r.events.Pairwise (fun a b => a.id < b.id) ∧
      ((r.events = [] ∧ r.nextCursor = encodeCursor 4) ∨
        (∃ e, r.events.getLast? = some e ∧ r.nextCursor = encodeCursor e.id))) ∧
    (∀ fuel, (orgEventsAfter demoLog 7 4).length < fuel →
      collectDelta demoLog 3 7 2 fuel (encodeCursor 4) = orgEventsAfter demoLog 7 4)) :=
  ⟨⟨by decide, decodeCursor_encodeCursor 4, by omega, by omega⟩,
    syncDelta_page_and_roundtrip demoLog 3 7 2 4 (encodeCursor 4)
      (by decide) (decodeCursor_encodeCursor 4) (by omega) (by omega)⟩

/-- Claim C4: a sync/delta request whose cursor decodes to an ordinal older
than the retention horizon of the org yields cursor_expired, and never any
ok event-list response (no partial, empty-but-200, or wrong-order list). -/
theorem syncDelta_cursor_before_horizon_expired
    (log : List ChangeEvent) (horizon org limit c : Nat) (cursor : String)
    (hdec : decodeCursor cursor = some c) (hc : c < horizon) :
    syncDelta log horizon org cursor limit = .error .cursorExpired ∧
      ∀ r : SyncResp, syncDelta log horizon org cursor limit ≠ .ok r := by
  have hcur_ne : cursor ≠ "" := by
    intro h
    rw [h, decodeCursor_empty] at hdec
    exact Option.noConfusion hdec
  have hmain : syncDelta log horizon org cursor limit = .error .cursorExpired := by
    unfold syncDelta
    rw [if_neg hcur_ne, hdec]
    exact if_pos hc
  refine ⟨hmain, fun r h => ?_⟩
  rw [hmain] at h
  exact Except.noConfusion h

/-- Witness for C4 on a concrete log and stale cursor. -/
theorem syncDelta_cursor_before_horizon_expired_witness :
    (decodeCursor (encodeCursor 1) = some 1 ∧ 1 < 3) ∧
    (syncDelta demoLog 3 7 (encodeCursor 1) 5 = .error .cursorExpired ∧
      ∀ r : SyncResp, syncDelta demoLog 3 7 (encodeCursor 1) 5 ≠ .ok r) :=
  ⟨⟨decodeCursor_encodeCursor 1, by omega⟩,
    syncDelta_cursor_before_horizon_expired demoLog 3 7 5 1 (encodeCursor 1)
      (decodeCursor_encodeCursor 1) (by omega)⟩

end DeltaSync

namespace Idem

theorem not_passive_won : ¬ OnlyPassive .won := by
  rintro (hp | hp) <;> exact ReqPhase.noConfusion hp

theorem not_passive_ran (r : Nat) : ¬ OnlyPassive (.ran r) := by
  rintro (hp | hp) <;> exact ReqPhase.noConfusion hp

theorem not_passive_done (r : Nat) : ¬ OnlyPassive (.done r) := by
  rintro (hp | hp) <;> exact ReqPhase.noConfusion hp

theorem raceInv_init (h d0 : Nat) (f : Nat → Nat × Nat) (n : Nat) :
    RaceInv h f d0 (raceInit n d0) :=
  Or.inl ⟨rfl, fun _ => rfl, rfl, rfl⟩

theorem raceInv_step (h d0 : Nat) (f : Nat → Nat × Nat) {n : Nat}
    {s s2 : RaceState n} (hinv : RaceInv h f d0 s)
    (hstep : RaceStep h f s s2) : RaceInv h f d0 s2 := by
  cases hstep with
  | insertWin i hps hrec =>
    rcases hinv with ⟨_, hall, hmut, hdom⟩ | ⟨hr, _, _, _⟩ | ⟨hr, _, _, _⟩ | ⟨hr, _, _, _⟩
    · refine Or.inr (Or.inl ⟨rfl, ⟨i, ?_, ?_⟩, hmut, hdom⟩)
      · exact Function.update_same i _ _
      · intro j hj
        show OnlyPassive (Function.update s.procs i .won j)
        rw [Function.update_noteq hj]
        exact Or.inl (hall j)
    all_goals rw [hrec] at hr; exact Option.noConfusion hr
  | replay i r resp hps hrec hh hresp =>
    rcases hinv with ⟨hr, _, _, _⟩ | ⟨hr, _, _, _⟩ | ⟨hr, _, _, _⟩ |
      ⟨hr, hall, hmut, hdom⟩
    · rw [hrec] at hr; exact Option.noConfusion hr
    · rw [hrec] at hr
      obtain rfl := Option.some.inj hr
      exact Option.noConfusion hresp
    · rw [hrec] at hr
      obtain rfl := Option.some.inj hr
      exact Option.noConfusion hresp
    · rw [hrec] at hr
      obtain rfl := Option.some.inj hr
      obtain rfl := Option.some.inj hresp
      refine Or.inr (Or.inr (Or.inr ⟨hrec, fun j => ?_, hmut, hdom⟩))
      show OnlyPassive (Function.update s.procs i (.done (f d0).2) j) ∨
        Function.update s.procs i (.done (f d0).2) j = .done (f d0).2
      by_cases hj : j = i
      · subst hj
        rw [Function.update_same]
        exact Or.inr rfl
      · rw [Function.update_noteq hj]
        exact hall j
  | insertLose i r hps hrec hh hresp =>
    rcases hinv with ⟨hr, _, _, _⟩ | ⟨hr, ⟨iw, hw, hothers⟩, hmut, hdom⟩ |
      ⟨hr, ⟨iw, hw, hothers⟩, hmut, hdom⟩ | ⟨hr, _, _, _⟩
    · rw [hrec] at hr; exact Option.noConfusion hr
    · have hne : iw ≠ i := by
        intro he
        rw [he, hps] at hw
        exact ReqPhase.noConfusion hw
      refine Or.inr (Or.inl ⟨hr, ⟨iw, ?_, ?_⟩, hmut, hdom⟩)
      · show Function.update s.procs i .waiting iw = .won
        rw [Function.update_noteq hne]
        exact hw
      · intro j hj
        show OnlyPassive (Function.update s.procs i .waiting j)
        by_cases hji : j = i
        · subst hji
          rw [Function.update_same]
          exact Or.inr rfl
        · rw [Function.update_noteq hji]
          exact hothers j hj
    · have hne : iw ≠ i := by
        intro he
        rw [he, hps] at hw
        exact ReqPhase.noConfusion hw
      refine Or.inr (Or.inr (Or.inl ⟨hr, ⟨iw, ?_, ?_⟩, hmut, hdom⟩))
      · show Function.update s.procs i .waiting iw = .ran (f d0).2
        rw [Function.update_noteq hne]
        exact hw
      · intro j hj
        show OnlyPassive (Function.update s.procs i .waiting j)
        by_cases hji : j = i
        · subst hji
          rw [Function.update_same]
          exact Or.inr rfl
        · rw [Function.update_noteq hji]
          exact hothers j hj
    · rw [hrec] at hr
      obtain rfl := Option.some.inj hr
      exact Option.noConfusion hresp
  | runMutation i hps =>
    rcases hinv with ⟨_, hall, _, _⟩ | ⟨hr, ⟨iw, hw, hothers⟩, hmut, hdom⟩ |
      ⟨_, ⟨iw, hw, hothers⟩, _, _⟩ | ⟨_, hall, _, _⟩
    · rw [hall i] at hps
      exact ReqPhase.noConfusion hps
    · have hii : i = iw := by
        by_contra hne
        have := hothers i hne
        rw [hps] at this
        exact not_passive_won this
      refine Or.inr (Or.inr (Or.inl ⟨hr, ⟨i, ?_, ?_⟩, ?_, ?_⟩))
      · show Function.update s.procs i (.ran (f s.domain).2) i = .ran (f d0).2
        rw [Function.update_same, hdom]
      · intro j hj
        show OnlyPassive (Function.update s.procs i (.ran (f s.domain).2) j)
        rw [Function.update_noteq hj]
        exact hothers j (hii ▸ hj)
      · show s.mutations + 1 = 1
        omega
      · show (f s.domain).1 = (f d0).1
        rw [hdom]
    · by_cases hii : i = iw
      · rw [hii, hw] at hps
        exact ReqPhase.noConfusion hps
      · have := hothers i hii
        rw [hps] at this
        exact absurd this not_passive_won
    · rcases hall i with hp | hp
      · rw [hps] at hp
        exact absurd hp not_passive_won
      · rw [hps] at hp
        exact ReqPhase.noConfusion hp
  | storeResponse i r resp hps hrec =>
    rcases hinv with ⟨_, hall, _, _⟩ | ⟨_, ⟨iw, hw, hothers⟩, _, _⟩ |
      ⟨hr, ⟨iw, hw, hothers⟩, hmut, hdom⟩ | ⟨_, hall, _, _⟩
    · rw [hall i] at hps
      exact ReqPhase.noConfusion hps
    · by_cases hii : i = iw
      · rw [hii, hw] at hps
        exact ReqPhase.noConfusion hps
      · have := hothers i hii
        rw [hps] at this
        exact absurd this (not_passive_ran resp)
    · have hii : i = iw := by
        by_contra hne
        have := hothers i hne
        rw [hps] at this
        exact not_passive_ran resp this
      have hresp2 : resp = (f d0).2 := by
        rw [hii, hw] at hps
        exact (ReqPhase.ran.inj hps).symm
      rw [hrec] at hr
      obtain rfl := Option.some.inj hr
      refine Or.inr (Or.inr (Or.inr ⟨?_, fun j => ?_, hmut, hdom⟩))
      · show some ({ payloadHash := h, response := some resp } : IdemRecord) =
          some ({ payloadHash := h, response := some (f d0).2 } : IdemRecord)
        rw [hresp2]
      · show OnlyPassive (Function.update s.procs i (.done resp) j) ∨
          Function.update s.procs i (.done resp) j = .done (f d0).2
        by_cases hji : j = i
        · subst hji
          rw [Function.update_same, hresp2]
          exact Or.inr rfl
        · rw [Function.update_noteq hji]
          exact Or.inl (hothers j (hii ▸ hji))
    · rcases hall i with hp | hp
      · rw [hps] at hp
        exact absurd hp (not_passive_ran resp)
      · rw [hps] at hp
        exact ReqPhase.noConfusion hp
  | pollDone i r resp hps hrec hresp =>
    rcases hinv with ⟨hr, _, _, _⟩ | ⟨hr, _, _, _⟩ | ⟨hr, _, _, _⟩ |
      ⟨hr, hall, hmut, hdom⟩
    · rw [hrec] at hr; exact Option.noConfusion hr
    · rw [hrec] at hr
      obtain rfl := Option.some.inj hr
      exact Option.noConfusion hresp
    · rw [hrec] at hr
      obtain rfl := Option.some.inj hr
      exact Option.noConfusion hresp
    · rw [hrec] at hr
      obtain rfl := Option.some.inj hr
      obtain rfl := Option.some.inj hresp
      refine Or.inr (Or.inr (Or.inr ⟨hrec, fun j => ?_, hmut, hdom⟩))
      show OnlyPassive (Function.update s.procs i (.done (f d0).2) j) ∨
        Function.update s.procs i (.done (f d0).2) j = .done (f d0).2
      by_cases hji : j = i
      · subst hji
        rw [Function.update_same]
        exact Or.inr rfl
      · rw [Function.update_noteq hji]
        exact hall j

theorem raceInv_reachable (h d0 : Nat) (f : Nat → Nat × Nat) (n : Nat)
    (s : RaceState n) (hreach : RaceReachable h f n d0 s) :
    RaceInv h f d0 s := by
  induction hreach with
  | refl => exact raceInv_init h d0 f n
  | tail _ hstep ih => exact raceInv_step h d0 f ih hstep

/-- Claim C1: in the race between any number of concurrent identical
idempotent requests the mutation never runs more than once, and once every
caller has finished the mutation ran exactly once and all callers hold the
same stored response snapshot; moreover a repeat request against an
already-completed record with a matching canonical hash replays the stored
response verbatim without touching the state. -/
theorem execute_idempotent_exactly_once
    (h d0 : Nat) (f : Nat → Nat × Nat) (n : Nat) (s : RaceState n)
    (hreach : RaceReachable h f n d0 s) :
    s.mutations ≤ 1 ∧
    (AllDone s → 0 < n →
      s.mutations = 1 ∧ ∀ i, s.procs i = .done (f d0).2) ∧
    (∀ (st : IdemState) (k : IdemKey) (payload : Payload)
        (g : Nat → Nat × Nat) (r : IdemRecord) (resp : Nat),
      lookupRecord st.store k = some r →
      r.payloadHash = canonicalHash payload →
      r.response = some resp →
      executeIdempotent st k payload g = (.ok resp, st)) := by
  have hinv := raceInv_reachable h d0 f n s hreach
  refine ⟨?_, ?_, ?_⟩
  · rcases hinv with ⟨_, _, hm, _⟩ | ⟨_, _, hm, _⟩ | ⟨_, _, hm, _⟩ | ⟨_, _, hm, _⟩ <;>
      omega
  · intro hdone hn
    rcases hinv with ⟨_, hall, _, _⟩ | ⟨_, ⟨i, hw, _⟩, _, _⟩ |
      ⟨_, ⟨i, hw, _⟩, _, _⟩ | ⟨_, hall, hm, _⟩
    · have hd := hdone ⟨0, hn⟩
      rw [hall ⟨0, hn⟩] at hd
      exact absurd hd (by simp [ReqPhase.isDone])
    · have hd := hdone i
      rw [hw] at hd
      exact absurd hd (by simp [ReqPhase.isDone])
    · have hd := hdone i
      rw [hw] at hd
      exact absurd hd (by simp [ReqPhase.isDone])
    · refine ⟨hm, fun i => ?_⟩
      rcases hall i with hp | hp
      · exfalso
        have hd := hdone i
        rcases hp with hp | hp <;> rw [hp] at hd <;>
          exact absurd hd (by simp [ReqPhase.isDone])
      · exact hp
  · intro st k payload g r resp hlook hhash hresp
    simp [executeIdempotent, hlook, hhash, hresp]

/-- Witness for C1: a concrete two-request race driven to completion. -/
theorem execute_idempotent_exactly_once_witness :
    RaceReachable 42 fdemo 2 5 raceS5 ∧
    (raceS5.mutations ≤ 1 ∧
      (AllDone raceS5 → 0 < 2 →
        raceS5.mutations = 1 ∧ ∀ i, raceS5.procs i = .done (fdemo 5).2) ∧
      (∀ (st : IdemState) (k : IdemKey) (payload : Payload)
          (g : Nat → Nat × Nat) (r : IdemRecord) (resp : Nat),
        lookupRecord st.store k = some r →
        r.payloadHash = canonicalHash payload →
        r.response = some resp →
        executeIdempotent st k payload g = (.ok resp, st))) := by
  have h1 : RaceStep 42 fdemo raceS0 raceS1 := RaceStep.insertWin raceS0 0 rfl rfl
  have h2 : RaceStep 42 fdemo raceS1 raceS2 :=
    RaceStep.insertLose raceS1 1 { payloadHash := 42, response := none }
      rfl rfl rfl rfl
  have h3 : RaceStep 42 fdemo raceS2 raceS3 := RaceStep.runMutation raceS2 0 rfl
  have h4 : RaceStep 42 fdemo raceS3 raceS4 :=
    RaceStep.storeResponse raceS3 0 { payloadHash := 42, response := none } 50
      rfl rfl
  have h5 : RaceStep 42 fdemo raceS4 raceS5 :=
    RaceStep.pollDone raceS4 1 { payloadHash := 42, response := some 50 } 50
      rfl rfl rfl
  have hreach : RaceReachable 42 fdemo 2 5 raceS5 :=
    .tail (.tail (.tail (.tail (.tail .refl h1) h2) h3) h4) h5
  exact ⟨hreach, execute_idempotent_exactly_once 42 5 fdemo 2 raceS5 hreach⟩

/-- Claim C2: a second request reusing the key with a different canonical
payload hash fails with idempotency_conflict; the stored record keeps the
first request's hash and response, and the domain state reflects only the
first request's mutation. -/
theorem execute_idempotent_conflict
    (st0 : IdemState) (k : IdemKey) (p1 p2 : Payload)
    (f g : Nat → Nat × Nat)
    (hnew : lookupRecord st0.store k = none)
    (hdiff : canonicalHash p2 ≠ canonicalHash p1) :
    ∀ o1 st1, executeIdempotent st0 k p1 f = (o1, st1) →
      executeIdempotent st1 k p2 g = (.conflict, st1) ∧
      lookupRecord st1.store k =
        some { payloadHash := canonicalHash p1,
               response := some (f st0.domain).2 } ∧
      st1.domain = (f st0.domain).1 ∧
      st1.mutations = st0.mutations + 1 := by
  intro o1 st1 hexec
  have hval : executeIdempotent st0 k p1 f =
      (.ok (f st0.domain).2,
        { store := (k, { payloadHash := canonicalHash p1,
                         response := some (f st0.domain).2 }) :: st0.store,
          domain := (f st0.domain).1,
          mutations := st0.mutations + 1 }) := by
    simp [executeIdempotent, hnew]
  rw [hval] at hexec
  injection hexec with ho hst
  subst hst
  have hlook1 : lookupRecord
      ((k, { payloadHash := canonicalHash p1,
             response := some (f st0.domain).2 }) :: st0.store) k =
      some { payloadHash := canonicalHash p1,
             response := some (f st0.domain).2 } := by
    simp [lookupRecord, List.find?]
  refine ⟨?_, hlook1, rfl, rfl⟩
  simp only [executeIdempotent, hlook1]
  rw [if_neg (fun hh => hdiff (Eq.symm hh))]

/-- Witness for C2: concrete conflicting payloads with the same key. -/
theorem execute_idempotent_conflict_witness :
    (lookupRecord st0demo.store kdemo = none ∧
      canonicalHash p2demo ≠ canonicalHash p1demo) ∧
    (∀ o1 st1, executeIdempotent st0demo kdemo p1demo fdemo = (o1, st1) →
      executeIdempotent st1 kdemo p2demo fdemo = (.conflict, st1) ∧
      lookupRecord st1.store kdemo =
        some { payloadHash := canonicalHash p1demo,
               response := some (fdemo st0demo.domain).2 } ∧
      st1.domain = (fdemo st0demo.domain).1 ∧
      st1.mutations = st0demo.mutations + 1) :=
  ⟨⟨rfl, by decide⟩,
    execute_idempotent_conflict st0demo kdemo p1demo p2demo fdemo fdemo
      rfl (by decide)⟩

end Idem

namespace TokenVerify

/-- Claim C6: a token whose header declares an algorithm outside the fixed
allowlist is rejected immediately with a VerificationError, for every key
set (in particular when the kid is present) and every signature oracle, so
the rejection happens before any signature check; the refresh-capable
entry point rejects it too, without performing any refresh. -/
theorem verify_rejects_unlisted_alg
    (tok : Token) (halg : allowedAlgs.contains tok.header.alg = false) :
    ∀ (env : VerifyEnv) (ks : VerifiedKeySet) (fetched : Option VerifiedKeySet)
      (now : Nat),
      verify env ks tok now = .error .invalidToken ∧
      verifyWithRefresh env ks fetched tok now = (.error .invalidToken, 0) := by
  intro env ks fetched now
  have halg2 : tok.header.alg ∉ allowedAlgs := by simpa using halg
  constructor
  · simp [verify, halg2]
  · simp [verifyWithRefresh, halg2]

/-- Witness for C6: a concrete HS256 token whose kid is present in the
key set. -/
theorem verify_rejects_unlisted_alg_witness :
    allowedAlgs.contains tokDemo.header.alg = false ∧
    (verify envDemo ksDemo tokDemo 0 = .error .invalidToken ∧
      verifyWithRefresh envDemo ksDemo (some ksDemo) tokDemo 0 =
        (.error .invalidToken, 0)) :=
  ⟨by decide,
    verify_rejects_unlisted_alg tokDemo (by decide) envDemo ksDemo
      (some ksDemo) 0⟩

end TokenVerify

namespace TokenApi

theorem countP_single_req_req :
    [FetchCall.request].countP (fun c => c == FetchCall.request) = 1 := rfl

theorem countP_single_req_ref :
    [FetchCall.request].countP (fun c => c == FetchCall.refresh) = 0 := rfl

theorem countP_pair_req :
    [FetchCall.request, FetchCall.refresh].countP
      (fun c => c == FetchCall.request) = 1 := rfl

theorem countP_pair_ref :
    [FetchCall.request, FetchCall.refresh].countP
      (fun c => c == FetchCall.refresh) = 1 := rfl

theorem doFetch_calls (tag : FetchCall) (st : ClientState) :
    (doFetch tag st).2.calls = st.calls ++ [tag] := by
  obtain ⟨a, r, c, script, calls⟩ := st
  cases script <;> rfl

theorem send_zero_calls (st : ClientState) :
    (send 0 st).2.calls = st.calls ++ [FetchCall.request] := by
  obtain ⟨a, r, c, script, calls⟩ := st
  cases script with
  | nil => rfl
  | cons o rest => cases o <;> rfl

theorem refresh_calls_shape (st : ClientState) :
    (refreshAccessToken st).2.calls = st.calls ∨
    (refreshAccessToken st).2.calls = st.calls ++ [FetchCall.refresh] := by
  obtain ⟨a, r, c, script, calls⟩ := st
  by_cases hr : r = ""
  · left
    simp [refreshAccessToken, hr, clearTokens]
  · cases script with
    | nil =>
      right
      simp [refreshAccessToken, hr, doFetch]
    | cons o rest =>
      cases o with
      | netError =>
        right
        simp [refreshAccessToken, hr, doFetch]
      | success resp =>
        right
        simp only [refreshAccessToken, hr, doFetch]
        split_ifs <;> simp_all [clearTokens]

theorem send_calls_bound (m : Nat) : ∀ st : ClientState,
    ∃ l, (send m st).2.calls = st.calls ++ l ∧
      l.countP (fun c => c == FetchCall.request) ≤ m + 1 ∧
      l.countP (fun c => c == FetchCall.refresh) ≤ m := by
  induction m with
  | zero =>
    intro st
    exact ⟨[FetchCall.request], send_zero_calls st,
      by rw [countP_single_req_req], by rw [countP_single_req_ref]⟩
  | succ m ih =>
    intro st
    rcases hf : doFetch FetchCall.request st with ⟨o, st1⟩
    have h1 : st1.calls = st.calls ++ [FetchCall.request] := by
      have hd := doFetch_calls FetchCall.request st
      rw [hf] at hd
      exact hd
    cases o with
    | netError =>
      refine ⟨[FetchCall.request], ?_,
        by rw [countP_single_req_req]; omega, by rw [countP_single_req_ref]; omega⟩
      simp only [send, hf]
      exact h1
    | success r =>
      by_cases h401 : r.status = 401
      · by_cases hauth : st1.accessTok = "" ∧ st1.refreshTok = ""
        · refine ⟨[FetchCall.request], ?_,
            by rw [countP_single_req_req]; omega,
            by rw [countP_single_req_ref]; omega⟩
          simp only [send, hf, if_pos h401, if_pos hauth]
          exact h1
        · rcases hrf : refreshAccessToken st1 with ⟨res, st2⟩
          have h2 := refresh_calls_shape st1
          rw [hrf] at h2
          cases res with
          | error e =>
            rcases h2 with h2 | h2
            · refine ⟨[FetchCall.request], ?_,
                by rw [countP_single_req_req]; omega,
                by rw [countP_single_req_ref]; omega⟩
              simp only [send, hf, if_pos h401, if_neg hauth, hrf]
              rw [h2, h1]
            · refine ⟨[FetchCall.request, FetchCall.refresh], ?_,
                by rw [countP_pair_req]; omega, by rw [countP_pair_ref]; omega⟩
              simp only [send, hf, if_pos h401, if_neg hauth, hrf]
              rw [h2, h1]
              simp
          | ok access =>
            by_cases hacc : access = ""
            · rcases h2 with h2 | h2
              · refine ⟨[FetchCall.request], ?_,
                  by rw [countP_single_req_req]; omega,
                  by rw [countP_single_req_ref]; omega⟩
                simp only [send, hf, if_pos h401, if_neg hauth, hrf, if_pos hacc]
                rw [h2, h1]
              · refine ⟨[FetchCall.request, FetchCall.refresh], ?_,
                  by rw [countP_pair_req]; omega, by rw [countP_pair_ref]; omega⟩
                simp only [send, hf, if_pos h401, if_neg hauth, hrf, if_pos hacc]
                rw [h2, h1]
                simp
            · obtain ⟨l2, hl2, hc1, hc2⟩ := ih st2
              rcases h2 with h2 | h2
              · refine ⟨[FetchCall.request] ++ l2, ?_, ?_, ?_⟩
                · simp only [send, hf, if_pos h401, if_neg hauth, hrf, if_neg hacc]
                  rw [hl2, h2, h1]
                  simp
                · rw [List.countP_append, countP_single_req_req]
                  omega
                · rw [List.countP_append, countP_single_req_ref]
                  omega
              · refine ⟨[FetchCall.request, FetchCall.refresh] ++ l2, ?_, ?_, ?_⟩
                · simp only [send, hf, if_pos h401, if_neg hauth, hrf, if_neg hacc]
                  rw [hl2, h2, h1]
                  simp
                · rw [List.countP_append, countP_pair_req]
                  omega
                · rw [List.countP_append, countP_pair_ref]
                  omega
      · refine ⟨[FetchCall.request], ?_,
          by rw [countP_single_req_req]; omega,
          by rw [countP_single_req_ref]; omega⟩
        simp only [send, hf, if_neg h401]
        exact h1

/-- Claim C8: after an authentication miss, exactly one refresh and one
retry happen.  Client side (part_006 send): for every fetch script at most
one refresh call and at most two request attempts occur, and in the
401-refresh-401 scenario the second 401 response is returned to the caller
with exactly one refresh and two attempts.  Server side (spec section
4.1): an unknown kid triggers exactly one key refresh, and a kid still
unknown after that refresh fails with invalid_token. -/
theorem refresh_and_retry_once :
    (∀ st : TokenApi.ClientState, st.calls = [] →
      TokenApi.countRefresh (TokenApi.send 1 st).2 ≤ 1 ∧
      TokenApi.countRequest (TokenApi.send 1 st).2 ≤ 2) ∧
    (∀ (atk rtk a : String) (r1 rok r2 : TokenApi.MockResponse)
        (b : TokenApi.RespBody),
      r1.status = 401 → r2.status = 401 → rtk ≠ "" →
      rok.ok = true → rok.body = some b → b.access = some a → a ≠ "" →
      (TokenApi.send 1
          { accessTok := atk, refreshTok := rtk, cleared := 0,
            script := [.success r1, .success rok, .success r2],
            calls := [] }).1 = .ok r2 ∧
      TokenApi.countRefresh (TokenApi.send 1
          { accessTok := atk, refreshTok := rtk, cleared := 0,
            script := [.success r1, .success rok, .success r2],
            calls := [] }).2 = 1 ∧
      TokenApi.countRequest (TokenApi.send 1
          { accessTok := atk, refreshTok := rtk, cleared := 0,
            script := [.success r1, .success rok, .success r2],
            calls := [] }).2 = 2) ∧
    (∀ (env : TokenVerify.VerifyEnv) (ks : TokenVerify.VerifiedKeySet)
        (fetched : Option TokenVerify.VerifiedKeySet)
        (tok : TokenVerify.Token) (now : Nat),
      TokenVerify.allowedAlgs.contains tok.header.alg = true →
      ks.keys.lookup tok.header.kid = none →
      (TokenVerify.verifyWithRefresh env ks fetched tok now).2 = 1 ∧
      (fetched.elim True (fun ks2 => ks2.keys.lookup tok.header.kid = none) →
        TokenVerify.verifyWithRefresh env ks fetched tok now =
          (.error .invalidToken, 1))) := by
  refine ⟨?_, ?_, ?_⟩
  · intro st hcalls
    obtain ⟨l, hl, hc1, hc2⟩ := TokenApi.send_calls_bound 1 st
    unfold TokenApi.countRefresh TokenApi.countRequest
    rw [hl, hcalls, List.nil_append]
    exact ⟨hc2, hc1⟩
  · intro atk rtk a r1 rok r2 b h1 h2 hrtk hok hbody hacc ha
    refine ⟨?_, ?_, ?_⟩ <;>
      simp [TokenApi.send, TokenApi.doFetch, TokenApi.refreshAccessToken,
        TokenApi.countRefresh, TokenApi.countRequest,
        h1, h2, hrtk, hok, hbody, hacc, ha]
  · intro env ks fetched tok now halg hkid
    have halg2 : tok.header.alg ∈ TokenVerify.allowedAlgs := by
      simpa using halg
    constructor
    · cases fetched with
      | none => simp [TokenVerify.verifyWithRefresh, halg2, hkid]
      | some ks2 =>
        cases hk2 : ks2.keys.lookup tok.header.kid with
        | none => simp [TokenVerify.verifyWithRefresh, halg2, hkid, hk2]
        | some key => simp [TokenVerify.verifyWithRefresh, halg2, hkid, hk2]
    · intro hstill
      cases fetched with
      | none => simp [TokenVerify.verifyWithRefresh, halg2, hkid]
      | some ks2 =>
        have hk2 : ks2.keys.lookup tok.header.kid = none := hstill
        simp [TokenVerify.verifyWithRefresh, halg2, hkid, hk2]

/-- Witness for C8: each conjunct applied at a concrete input. -/
theorem refresh_and_retry_once_witness :
    (TokenApi.stEmptyDemo.calls = [] ∧
      (TokenApi.countRefresh (TokenApi.send 1 TokenApi.stEmptyDemo).2 ≤ 1 ∧
        TokenApi.countRequest (TokenApi.send 1 TokenApi.stEmptyDemo).2 ≤ 2)) ∧
    ((TokenApi.send 1 TokenApi.stRetryDemo).1 = .ok TokenApi.r401Demo ∧
      TokenApi.countRefresh (TokenApi.send 1 TokenApi.stRetryDemo).2 = 1 ∧
      TokenApi.countRequest (TokenApi.send 1 TokenApi.stRetryDemo).2 = 2) ∧
    (TokenVerify.allowedAlgs.contains TokenVerify.tokDemo2.header.alg = true ∧
      TokenVerify.ksDemo.keys.lookup TokenVerify.tokDemo2.header.kid = none ∧
      ((TokenVerify.verifyWithRefresh TokenVerify.envDemo TokenVerify.ksDemo
          (some TokenVerify.ksDemo) TokenVerify.tokDemo2 0).2 = 1 ∧
        ((some TokenVerify.ksDemo).elim True
            (fun ks2 => ks2.keys.lookup TokenVerify.tokDemo2.header.kid = none) →
          TokenVerify.verifyWithRefresh TokenVerify.envDemo TokenVerify.ksDemo
            (some TokenVerify.ksDemo) TokenVerify.tokDemo2 0 =
            (.error .invalidToken, 1)))) :=
  ⟨⟨rfl, refresh_and_retry_once.1 TokenApi.stEmptyDemo rfl⟩,
    refresh_and_retry_once.2.1 "old" "rt" "na" TokenApi.r401Demo
      TokenApi.rokDemo TokenApi.r401Demo TokenApi.bodyDemo rfl rfl
      (by decide) rfl rfl rfl (by decide),
    by decide, by decide,
    refresh_and_retry_once.2.2 TokenVerify.envDemo TokenVerify.ksDemo
      (some TokenVerify.ksDemo) TokenVerify.tokDemo2 0 (by decide) (by decide)⟩

end TokenApi

/-- Counterexample for C10 as stated: in the token-based client (part_006
`refreshAccessToken`) a thrown network error during the refresh fetch
propagates as a rejection; clearTokens is never called (the cleared count
stays 0) and no falsy result is returned. -/
theorem refresh_netError_counterexample :
    TokenApi.refreshAccessToken TokenApi.stNetErr =
      (.error (), { accessTok := "", refreshTok := "r", cleared := 0,
                    script := [], calls := [TokenApi.FetchCall.refresh] }) ∧
    (TokenApi.refreshAccessToken TokenApi.stNetErr).2.cleared = 0 ∧
    ¬ ((TokenApi.refreshAccessToken TokenApi.stNetErr).2.cleared =
        TokenApi.stNetErr.cleared + 1) := by
  refine ⟨by rfl, by rfl, by decide⟩

/-- Claim C10 as amended: in the cookie-session client
(frontend/src/api.js) every refresh failure — CSRF initialization throwing
or failing, a rejected refresh fetch, or a non-OK refresh response — calls
clearTokens exactly once and returns false, while an OK refresh clears
nothing and returns true.  In the token-based client (part_006) a non-OK
refresh response or a body without a non-empty access token clears the
session exactly once and resolves with the empty string, but a thrown
network error propagates as a rejection without clearing; and when the
refresh resolves falsy, send returns the original 401 response to the
caller with no retry request and no second refresh. -/
theorem refresh_failure_clears_session :
    (∀ (st : TokenApi.ClientState) (r : TokenApi.MockResponse)
        (rest : List TokenApi.FetchOutcome),
      st.refreshTok ≠ "" → st.script = .success r :: rest →
      (r.ok = false ∨ (match r.body with
        | some b => b.access.getD ""
        | none => "") = "") →
      (TokenApi.refreshAccessToken st).1 = .ok "" ∧
      (TokenApi.refreshAccessToken st).2.cleared = st.cleared + 1 ∧
      (TokenApi.refreshAccessToken st).2.accessTok = "" ∧
      (TokenApi.refreshAccessToken st).2.refreshTok = "") ∧
    (∀ (st : TokenApi.ClientState) (rest : List TokenApi.FetchOutcome),
      st.refreshTok ≠ "" → st.script = .netError :: rest →
      (TokenApi.refreshAccessToken st).1 = .error () ∧
      (TokenApi.refreshAccessToken st).2.cleared = st.cleared) ∧
    (∀ (st : CookieApi.CState) (rest : List CookieApi.CFetchOutcome),
      st.csrfCookie = "" → st.script = .netError :: rest →
      (CookieApi.refreshAccessToken st).1 = false ∧
      (CookieApi.refreshAccessToken st).2.cleared = st.cleared + 1) ∧
    (∀ (st : CookieApi.CState) (t : String)
        (rest : List CookieApi.CFetchOutcome),
      st.csrfCookie = "" → st.script = .success false t :: rest →
      (CookieApi.refreshAccessToken st).1 = false ∧
      (CookieApi.refreshAccessToken st).2.cleared = st.cleared + 1) ∧
    (∀ (st : CookieApi.CState) (rest : List CookieApi.CFetchOutcome),
      st.csrfCookie ≠ "" → st.script = .netError :: rest →
      (CookieApi.refreshAccessToken st).1 = false ∧
      (CookieApi.refreshAccessToken st).2.cleared = st.cleared + 1) ∧
    (∀ (st : CookieApi.CState) (t : String)
        (rest : List CookieApi.CFetchOutcome),
      st.csrfCookie ≠ "" → st.script = .success false t :: rest →
      (CookieApi.refreshAccessToken st).1 = false ∧
      (CookieApi.refreshAccessToken st).2.cleared = st.cleared + 1) ∧
    (∀ (st : CookieApi.CState) (t : String)
        (rest : List CookieApi.CFetchOutcome),
      st.csrfCookie ≠ "" → st.script = .success true t :: rest →
      (CookieApi.refreshAccessToken st).1 = true ∧
      (CookieApi.refreshAccessToken st).2.cleared = st.cleared) ∧
    (∀ (atk rtk : String) (r1 rbad : TokenApi.MockResponse),
      r1.status = 401 → rtk ≠ "" → rbad.ok = false →
      (TokenApi.send 1
          { accessTok := atk, refreshTok := rtk, cleared := 0,
            script := [.success r1, .success rbad], calls := [] }).1 =
        .ok r1 ∧
      TokenApi.countRequest (TokenApi.send 1
          { accessTok := atk, refreshTok := rtk, cleared := 0,
            script := [.success r1, .success rbad], calls := [] }).2 = 1 ∧
      TokenApi.countRefresh (TokenApi.send 1
          { accessTok := atk, refreshTok := rtk, cleared := 0,
            script := [.success r1, .success rbad], calls := [] }).2 = 1) := by
  refine ⟨?_, ?_, ?_, ?_, ?_, ?_, ?_, ?_⟩
  · intro st r rest hrt hscript hbad
    obtain ⟨a, rt, c, script, calls⟩ := st
    obtain rfl : script = .success r :: rest := hscript
    replace hrt : rt ≠ "" := hrt
    simp only [TokenApi.refreshAccessToken, TokenApi.doFetch, if_neg hrt]
    rw [if_pos hbad]
    simp [TokenApi.clearTokens]
  · intro st rest hrt hscript
    obtain ⟨a, rt, c, script, calls⟩ := st
    obtain rfl : script = .netError :: rest := hscript
    replace hrt : rt ≠ "" := hrt
    simp [TokenApi.refreshAccessToken, TokenApi.doFetch, if_neg hrt]
  · intro st rest hck hscript
    obtain ⟨ck, c, script, calls⟩ := st
    obtain rfl : script = .netError :: rest := hscript
    replace hck : ck = "" := hck
    simp [CookieApi.refreshAccessToken, CookieApi.ensureCsrfCookie,
      CookieApi.doFetch, CookieApi.clearTokens, hck]
  · intro st t rest hck hscript
    obtain ⟨ck, c, script, calls⟩ := st
    obtain rfl : script = .success false t :: rest := hscript
    replace hck : ck = "" := hck
    simp [CookieApi.refreshAccessToken, CookieApi.ensureCsrfCookie,
      CookieApi.doFetch, CookieApi.clearTokens, hck]
  · intro st rest hck hscript
    obtain ⟨ck, c, script, calls⟩ := st
    obtain rfl : script = .netError :: rest := hscript
    replace hck : ck ≠ "" := hck
    simp [CookieApi.refreshAccessToken, CookieApi.ensureCsrfCookie,
      CookieApi.doFetch, CookieApi.clearTokens, hck]
  · intro st t rest hck hscript
    obtain ⟨ck, c, script, calls⟩ := st
    obtain rfl : script = .success false t :: rest := hscript
    replace hck : ck ≠ "" := hck
    simp [CookieApi.refreshAccessToken, CookieApi.ensureCsrfCookie,
      CookieApi.doFetch, CookieApi.clearTokens, hck]
  · intro st t rest hck hscript
    obtain ⟨ck, c, script, calls⟩ := st
    obtain rfl : script = .success true t :: rest := hscript
    replace hck : ck ≠ "" := hck
    simp [CookieApi.refreshAccessToken, CookieApi.ensureCsrfCookie,
      CookieApi.doFetch, CookieApi.clearTokens, hck]
  · intro atk rtk r1 rbad h1 hrt hbad
    refine ⟨?_, ?_, ?_⟩ <;>
      simp [TokenApi.send, TokenApi.doFetch, TokenApi.refreshAccessToken,
        TokenApi.clearTokens, TokenApi.countRefresh, TokenApi.countRequest,
        h1, hrt, hbad]

/-- Witness for the amended C10: each conjunct applied at a concrete
state. -/
theorem refresh_failure_clears_session_witness :
    ((TokenApi.refreshAccessToken TokenApi.stBadRespDemo).1 = .ok "" ∧
      (TokenApi.refreshAccessToken TokenApi.stBadRespDemo).2.cleared = 1) ∧
    ((TokenApi.refreshAccessToken TokenApi.stNetErr).1 = .error () ∧
      (TokenApi.refreshAccessToken TokenApi.stNetErr).2.cleared = 0) ∧
    ((CookieApi.refreshAccessToken CookieApi.cCsrfNetDemo).1 = false ∧
      (CookieApi.refreshAccessToken CookieApi.cCsrfNetDemo).2.cleared = 1) ∧
    ((CookieApi.refreshAccessToken CookieApi.cCsrfBadDemo).1 = false ∧
      (CookieApi.refreshAccessToken CookieApi.cCsrfBadDemo).2.cleared = 1) ∧
    ((CookieApi.refreshAccessToken CookieApi.cRefreshNetDemo).1 = false ∧
      (CookieApi.refreshAccessToken CookieApi.cRefreshNetDemo).2.cleared = 1) ∧
    ((CookieApi.refreshAccessToken CookieApi.cRefreshBadDemo).1 = false ∧
      (CookieApi.refreshAccessToken CookieApi.cRefreshBadDemo).2.cleared = 1) ∧
    ((CookieApi.refreshAccessToken CookieApi.cRefreshOkDemo).1 = true ∧
      (CookieApi.refreshAccessToken CookieApi.cRefreshOkDemo).2.cleared = 0) ∧
    ((TokenApi.send 1 TokenApi.stFailRetryDemo).1 = .ok TokenApi.r401Demo ∧
      TokenApi.countRequest (TokenApi.send 1 TokenApi.stFailRetryDemo).2 = 1 ∧
      TokenApi.countRefresh (TokenApi.send 1 TokenApi.stFailRetryDemo).2 = 1) := by
  have h := refresh_failure_clears_session
  refine ⟨?_, ?_, ?_, ?_, ?_, ?_, ?_, ?_⟩
  · have ha := h.1 TokenApi.stBadRespDemo TokenApi.r401Demo []
      (by decide) rfl (by decide)
    exact ⟨ha.1, ha.2.1⟩
  · have hb := h.2.1 TokenApi.stNetErr [] (by decide) rfl
    exact ⟨hb.1, hb.2⟩
  · have hc := h.2.2.1 CookieApi.cCsrfNetDemo [] rfl rfl
    exact hc
  · have hd := h.2.2.2.1 CookieApi.cCsrfBadDemo "t" [] rfl rfl
    exact hd
  · have he := h.2.2.2.2.1 CookieApi.cRefreshNetDemo [] (by decide) rfl
    exact he
  · have hf := h.2.2.2.2.2.1 CookieApi.cRefreshBadDemo "" [] (by decide) rfl
    exact hf
  · have hg := h.2.2.2.2.2.2.1 CookieApi.cRefreshOkDemo "" [] (by decide) rfl
    exact hg
  · have hh := h.2.2.2.2.2.2.2 "old" "rt" TokenApi.r401Demo TokenApi.r401Demo
      rfl (by decide) (by decide)
    exact hh


namespace SingleFlight

theorem take_set_of_le {α : Type} :
    ∀ (l : List α) (i : Nat) (a : α) (n : Nat), n ≤ i →
      (l.set i a).take n = l.take n := by
  intro l
  induction l with
  | nil => intro i a n _; rfl
  | cons x xs ih =>
    intro i a n hn
    cases i with
    | zero =>
      obtain rfl : n = 0 := Nat.le_zero.mp hn
      rfl
    | succ i =>
      cases n with
      | zero => rfl
      | succ n =>
        show x :: (xs.set i a).take n = x :: xs.take n
        rw [ih i a n (Nat.le_of_succ_le_succ hn)]

theorem sfInv_init : SFInv sfInit :=
  ⟨rfl, fun _ b hb => absurd hb (List.not_mem_nil b),
    fun _ hp => Option.noConfusion hp⟩

theorem sfInv_step (lab : SFLabel) {s s2 : SFState}
    (hinv : SFInv s) (hstep : SFStep lab s s2) : SFInv s2 := by
  obtain ⟨hf, hnone, hsome⟩ := hinv
  cases hstep with
  | callJoin p hp => exact ⟨hf, hnone, hsome⟩
  | callNew =>
    rename_i hn
    refine ⟨?_, ?_, ?_⟩
    · show s.fetches + 1 = (s.promises ++ [false]).length
      rw [hf, List.length_append]
      rfl
    · intro hno
      exact Option.noConfusion hno
    · intro p hp
      obtain rfl : s.promises.length = p := Option.some.inj hp
      constructor
      · rw [List.length_append]
        rfl
      · rw [List.take_left]
        exact hnone hn
  | settle =>
    rename_i p hp
    cases hq : s.inFlight with
    | none =>
      have hb := hnone hq false (List.get?_mem hp)
      exact absurd hb (by simp)
    | some q =>
      obtain ⟨hlen, htake⟩ := hsome q hq
      have hplt : p < s.promises.length := by
        rcases List.get?_eq_some.mp hp with ⟨hlt, _⟩
        exact hlt
      have hpq : p = q := by
        by_contra hne
        have hplt2 : p < q := by omega
        have hget : (s.promises.take q).get? p = s.promises.get? p :=
          List.get?_take hplt2
        have hmem : (false : Bool) ∈ s.promises.take q := by
          apply List.get?_mem
          rw [hget, hp]
        have := htake false hmem
        simp at this
      subst hpq
      refine ⟨?_, ?_, ?_⟩
      · show s.fetches = (s.promises.set p true).length
        rw [hf, List.length_set]
      · intro hno
        exact Option.noConfusion hno
      · intro q2 hq2
        have hq2e : p = q2 := Option.some.inj hq2
        subst hq2e
        constructor
        · show p + 1 = (s.promises.set p true).length
          rw [List.length_set]
          exact hlen
        · show ∀ b ∈ (s.promises.set p true).take p, b = true
          rw [take_set_of_le _ _ _ _ (Nat.le_refl p)]
          exact htake
  | clearVar =>
    rename_i p hp hset
    refine ⟨hf, ?_, ?_⟩
    · intro _
      obtain ⟨hlen, htake⟩ := hsome p hp
      intro b hb
      obtain ⟨i, hi⟩ := List.mem_iff_get?.mp hb
      have hilt : i < s.promises.length := by
        rcases List.get?_eq_some.mp hi with ⟨hlt, _⟩
        exact hlt
      by_cases hip : i < p
      · apply htake b
        apply List.get?_mem
        rw [List.get?_take hip, hi]
      · have hieq : i = p := by omega
        rw [hieq, hset] at hi
        exact (Option.some.inj hi).symm
    · intro q hq
      exact Option.noConfusion hq

theorem sfInv_reachable (s : SFState) (hreach : SFReachable s) : SFInv s := by
  induction hreach with
  | refl => exact sfInv_init
  | tail _ hstep ih =>
    obtain ⟨lab, hlab⟩ := hstep
    exact sfInv_step lab ih hlab

theorem unsettledCount_le_one {s : SFState} (hinv : SFInv s) :
    unsettledCount s ≤ 1 := by
  obtain ⟨hf, hnone, hsome⟩ := hinv
  cases hq : s.inFlight with
  | none =>
    have hall := hnone hq
    unfold unsettledCount
    have : s.promises.filter (fun b => !b) = [] := by
      rw [List.filter_eq_nil_iff]
      intro b hb
      rw [hall b hb]
      simp
    rw [this]
    exact Nat.zero_le 1
  | some p =>
    obtain ⟨hlen, htake⟩ := hsome p hq
    unfold unsettledCount
    conv_lhs => rw [← List.take_append_drop p s.promises, List.filter_append]
    have h1 : (s.promises.take p).filter (fun b => !b) = [] := by
      rw [List.filter_eq_nil_iff]
      intro b hb
      rw [htake b hb]
      simp
    rw [h1, List.nil_append]
    have h2 := List.length_filter_le (fun b => !b) (s.promises.drop p)
    rw [List.length_drop] at h2
    omega

/-- Claim C7: at every reachable instant at most one refresh is in flight
and each created promise corresponds to exactly one network call; a caller
arriving while a refresh is in flight joins exactly the stored in-flight
promise and changes nothing (issuing no network call); and a new refresh
network call starts only when the refreshPromise variable is clear, at
which point every previously created refresh has already settled. -/
theorem single_flight_refresh :
    (∀ s : SFState, SFReachable s →
      unsettledCount s ≤ 1 ∧ s.fetches = s.promises.length) ∧
    (∀ (s s2 : SFState) (p : Nat), SFStep (.callJoin p) s s2 →
      s2 = s ∧ s.inFlight = some p) ∧
    (∀ (s s2 : SFState) (p : Nat), SFReachable s → SFStep (.callNew p) s s2 →
      s.inFlight = none ∧ (∀ b ∈ s.promises, b = true) ∧
      s2.fetches = s.fetches + 1) := by
  refine ⟨?_, ?_, ?_⟩
  · intro s hreach
    have hinv := sfInv_reachable s hreach
    exact ⟨unsettledCount_le_one hinv, hinv.1⟩
  · intro s s2 p hstep
    cases hstep with
    | callJoin _ hp =>
      rename_i hp2
      exact ⟨rfl, hp2⟩
  · intro s s2 p hreach hstep
    have hinv := sfInv_reachable s hreach
    cases hstep with
    | callNew =>
      rename_i hn
      exact ⟨hn, hinv.2.1 hn, rfl⟩

/-- Witness for C7: a concrete run with a join during the first refresh, a
settle-and-clear, and a second refresh afterwards. -/
theorem single_flight_refresh_witness :
    (SFReachable sfS4 ∧ (unsettledCount sfS4 ≤ 1 ∧
      sfS4.fetches = sfS4.promises.length)) ∧
    (SFStep (.callJoin 0) sfS1 sfS1 ∧
      (sfS1 = sfS1 ∧ sfS1.inFlight = some 0)) ∧
    (SFReachable sfS3 ∧ SFStep (.callNew 1) sfS3 sfS4 ∧
      (sfS3.inFlight = none ∧ (∀ b ∈ sfS3.promises, b = true) ∧
        sfS4.fetches = sfS3.fetches + 1)) := by
  have h1 : SFStep (.callNew 0) sfInit sfS1 := SFStep.callNew sfInit rfl
  have h2 : SFStep (.settle 0) sfS1 sfS2 := SFStep.settle sfS1 0 rfl
  have h3 : SFStep (.clearVar 0) sfS2 sfS3 := SFStep.clearVar sfS2 0 rfl rfl
  have h4 : SFStep (.callNew 1) sfS3 sfS4 := SFStep.callNew sfS3 rfl
  have hjoin : SFStep (.callJoin 0) sfS1 sfS1 := SFStep.callJoin sfS1 0 rfl
  have hr3 : SFReachable sfS3 :=
    .tail (.tail (.tail .refl ⟨_, h1⟩) ⟨_, h2⟩) ⟨_, h3⟩
  have hr4 : SFReachable sfS4 := .tail hr3 ⟨_, h4⟩
  exact ⟨⟨hr4, single_flight_refresh.1 sfS4 hr4⟩,
    ⟨hjoin, single_flight_refresh.2.1 sfS1 sfS1 0 hjoin⟩,
    ⟨hr3, h4, single_flight_refresh.2.2 sfS3 sfS4 1 hr3 h4⟩⟩

end SingleFlight

namespace LiveSync

theorem updateCursor_cases (cur : String) (r : ChangesResp) :
    (∃ s, r.cursor = .str s ∧ s ≠ "" ∧ updateCursor cur r = s) ∨
    updateCursor cur r = cur := by
  cases hc : r.cursor with
  | str s =>
    by_cases hs : s = ""
    · right
      simp [updateCursor, hc, hs]
    · left
      exact ⟨s, rfl, hs, by simp [updateCursor, hc, hs]⟩
  | other =>
    right
    simp [updateCursor, hc]

theorem cursorAfter_mem :
    ∀ (rs : List ChangesResp) (cur : String),
      cursorAfter cur rs ∈ cur :: serverCursors rs := by
  intro rs
  induction rs with
  | nil =>
    intro cur
    simp [cursorAfter, serverCursors]
  | cons r rs ih =>
    intro cur
    show cursorAfter (updateCursor cur r) rs ∈ cur :: serverCursors (r :: rs)
    cases hc : r.cursor with
    | str s =>
      by_cases hs : s = ""
      · have h1 : updateCursor cur r = cur := by simp [updateCursor, hc, hs]
        have h2 : serverCursors (r :: rs) = serverCursors rs := by
          simp [serverCursors, hc, hs]
        rw [h1, h2]
        exact ih cur
      · have h1 : updateCursor cur r = s := by simp [updateCursor, hc, hs]
        have h2 : serverCursors (r :: rs) = s :: serverCursors rs := by
          simp [serverCursors, hc, hs]
        rw [h1, h2]
        exact List.mem_cons_of_mem cur (ih s)
    | other =>
      have h1 : updateCursor cur r = cur := by simp [updateCursor, hc]
      have h2 : serverCursors (r :: rs) = serverCursors rs := by
        simp [serverCursors, hc]
      rw [h1, h2]
      exact ih cur

theorem changesQuery_cursor_verbatim (cursor : String) (t p : Nat) :
    (changesQueryParams cursor t p).lookup "cursor" =
      if cursor = "" then none else some cursor := by
  by_cases hc : cursor = "" <;>
    simp [changesQueryParams, hc, List.lookup]

theorem cursorAfter_equivariant (f : String → String)
    (hf : ∀ s, f s = "" ↔ s = "") :
    ∀ (rs : List ChangesResp) (c0 : String),
      cursorAfter (f c0) (rs.map (mapCursorResp f)) = f (cursorAfter c0 rs) := by
  intro rs
  induction rs with
  | nil =>
    intro c0
    rfl
  | cons r rs ih =>
    intro c0
    rw [List.map_cons]
    show cursorAfter (updateCursor (f c0) (mapCursorResp f r))
        (rs.map (mapCursorResp f)) = f (cursorAfter (updateCursor c0 r) rs)
    rw [← ih (updateCursor c0 r)]
    congr 1
    cases hc : r.cursor with
    | str s =>
      by_cases hs : s = ""
      · have hfs : f s = "" := (hf s).mpr hs
        subst hs
        simp [updateCursor, mapCursorResp, hc, hfs]
      · have hfs : ¬ f s = "" := fun h => hs ((hf s).mp h)
        simp [updateCursor, mapCursorResp, hc, hs, hfs]
    | other =>
      simp [updateCursor, mapCursorResp, hc]

/-- Claim C9: the live-sync loop treats the cursor as opaque.  Starting
from the empty cursor, the stored cursor is always either the initial
empty string or literally one of the non-empty string cursors the server
returned; the changes request carries the stored cursor verbatim as the
`cursor` query parameter (omitted when empty); the stored cursor changes
only when the response carries a non-empty string cursor, and then to that
string; and the whole loop is equivariant under any relabelling of cursor
strings that preserves emptiness, so it never parses, constructs or
arithmetically advances a cursor. -/
theorem cursor_never_parsed :
    (∀ rs : List ChangesResp, cursorAfter "" rs ∈ "" :: serverCursors rs) ∧
    (∀ (cursor : String) (t p : Nat),
      (changesQueryParams cursor t p).lookup "cursor" =
        if cursor = "" then none else some cursor) ∧
    (∀ (cur : String) (r : ChangesResp),
      (∃ s, r.cursor = .str s ∧ s ≠ "" ∧ updateCursor cur r = s) ∨
      updateCursor cur r = cur) ∧
    (∀ f : String → String, (∀ s, f s = "" ↔ s = "") →
      ∀ (rs : List ChangesResp) (c0 : String),
        cursorAfter (f c0) (rs.map (mapCursorResp f)) =
          f (cursorAfter c0 rs)) :=
  ⟨fun rs => cursorAfter_mem rs "",
   changesQuery_cursor_verbatim,
   updateCursor_cases,
   cursorAfter_equivariant⟩

/-- Witness for C9 on a concrete response sequence and cursor. -/
theorem cursor_never_parsed_witness :
    (cursorAfter "" demoResps ∈ "" :: serverCursors demoResps) ∧
    ((changesQueryParams "abc:123" 15 750).lookup "cursor" =
      if "abc:123" = "" then none else some "abc:123") ∧
    ((∃ s, ({ changed := true, cursor := .str "c1" } : ChangesResp).cursor =
          .str s ∧ s ≠ "" ∧
        updateCursor "" { changed := true, cursor := .str "c1" } = s) ∨
      updateCursor "" { changed := true, cursor := .str "c1" } = "") ∧
    ((∀ s : String, (fun s : String => s) s = "" ↔ s = "") ∧
      ∀ (rs : List ChangesResp) (c0 : String),
        cursorAfter ((fun s : String => s) c0)
            (rs.map (mapCursorResp (fun s : String => s))) =
          (fun s : String => s) (cursorAfter c0 rs)) :=
  ⟨cursor_never_parsed.1 demoResps,
   cursor_never_parsed.2.1 "abc:123" 15 750,
   cursor_never_parsed.2.2.1 "" { changed := true, cursor := .str "c1" },
   ⟨fun _ => Iff.rfl,
     cursor_never_parsed.2.2.2 (fun s => s) (fun _ => Iff.rfl)⟩⟩

end LiveSync

namespace Outbox

theorem claim_inversion {leaseDur ceiling : Nat} {backoff : Nat → Nat}
    {w : Nat} {s s2 : OutboxState}
    (h : OStep leaseDur ceiling backoff (.claim w) s s2) :
    ((s.task.state = .pending ∧ s.task.availableAt ≤ s.now) ∨
      (s.task.state = .leased ∧
        ∃ u, s.task.lockedUntil = some u ∧ u ≤ s.now)) ∧
    s2 = { s with task :=
      { s.task with
        state := .leased, lockedBy := some w,
        lockedUntil := some (s.now + leaseDur),
        leaseToken := s.task.leaseToken + 1 } } := by
  cases h
  rename_i hg
  exact ⟨hg, rfl⟩

theorem success_inversion {leaseDur ceiling : Nat} {backoff : Nat → Nat}
    {w tok : Nat} {s s2 : OutboxState}
    (h : OStep leaseDur ceiling backoff (.completeSuccess w tok) s s2) :
    s.task.state = .leased ∧ s.task.lockedBy = some w ∧
    s.task.leaseToken = tok ∧
    s2 = { s with task :=
      { s.task with
        state := .sent, sentBy := some w,
        lockedBy := none, lockedUntil := none } } := by
  cases h
  rename_i h1 h2 h3
  exact ⟨h1, h2, h3, rfl⟩

theorem terminal_absorbing {leaseDur ceiling : Nat} {backoff : Nat → Nat}
    {l : Option OLabel} {s s2 : OutboxState}
    (hterm : terminal s.task.state = true)
    (h : OStepOpt leaseDur ceiling backoff l s s2) : s2.task = s.task := by
  cases l with
  | none =>
    rw [show s2 = s from h]
  | some a =>
    cases h with
    | tick => rfl
    | claim =>
      rename_i w hg
      rcases hg with ⟨h1, _⟩ | ⟨h1, _⟩ <;> rw [h1] at hterm <;>
        exact absurd hterm (by decide)
    | completeSuccess =>
      rename_i w tok h1 h2 h3
      rw [h1] at hterm
      exact absurd hterm (by decide)
    | completeRetry =>
      rename_i w tok h1 h2 h3 h4
      rw [h1] at hterm
      exact absurd hterm (by decide)
    | completeExhausted =>
      rename_i w tok h1 h2 h3 h4
      rw [h1] at hterm
      exact absurd hterm (by decide)
    | completeDead =>
      rename_i w tok h1 h2 h3
      rw [h1] at hterm
      exact absurd hterm (by decide)
    | cancel =>
      rename_i hg
      rcases hg with h1 | h1 <;> rw [h1] at hterm <;>
        exact absurd hterm (by decide)

theorem attempts_mono_step {leaseDur ceiling : Nat} {backoff : Nat → Nat}
    {l : Option OLabel} {s s2 : OutboxState}
    (h : OStepOpt leaseDur ceiling backoff l s s2) :
    s.task.attempts ≤ s2.task.attempts := by
  cases l with
  | none =>
    rw [show s2 = s from h]
  | some a =>
    cases h <;> simp

theorem invT_step {leaseDur ceiling : Nat} {backoff : Nat → Nat}
    {l : Option OLabel} {s s2 : OutboxState}
    (hinv : InvT ceiling s) (h : OStepOpt leaseDur ceiling backoff l s s2) :
    InvT ceiling s2 := by
  obtain ⟨hatt, hlock⟩ := hinv
  cases l with
  | none =>
    rw [show s2 = s from h]
    exact ⟨hatt, hlock⟩
  | some a =>
    cases h with
    | tick => exact ⟨hatt, hlock⟩
    | claim =>
      rename_i w hg
      constructor
      · intro _
        show s.task.attempts ≤ ceiling
        apply hatt
        rcases hg with ⟨h1, _⟩ | ⟨h1, _⟩ <;> rw [h1] <;> rfl
      · intro _
        rfl
    | completeSuccess =>
      rename_i w tok h1 h2 h3
      constructor
      · intro hterm2
        simp [terminal] at hterm2
      · intro hl
        simp at hl
    | completeRetry =>
      rename_i w tok h1 h2 h3 h4
      constructor
      · intro _
        show s.task.attempts + 1 ≤ ceiling
        omega
      · intro hl
        simp at hl
    | completeExhausted =>
      rename_i w tok h1 h2 h3 h4
      constructor
      · intro hterm2
        simp [terminal] at hterm2
      · intro hl
        simp at hl
    | completeDead =>
      rename_i w tok h1 h2 h3
      constructor
      · intro hterm2
        simp [terminal] at hterm2
      · intro hl
        simp at hl
    | cancel =>
      rename_i hg
      constructor
      · intro hterm2
        simp [terminal] at hterm2
      · intro hl
        exact hlock hl

theorem invT_run {leaseDur ceiling : Nat} {backoff : Nat → Nat}
    {tr : Nat → OutboxState} {lab : Nat → Option OLabel}
    (hrun : IsRun leaseDur ceiling backoff tr lab)
    (hinit : InvT ceiling (tr 0)) : ∀ i, InvT ceiling (tr i) := by
  intro i
  induction i with
  | zero => exact hinit
  | succ i ih => exact invT_step ih (hrun i)

theorem attempts_mono_run {leaseDur ceiling : Nat} {backoff : Nat → Nat}
    {tr : Nat → OutboxState} {lab : Nat → Option OLabel}
    (hrun : IsRun leaseDur ceiling backoff tr lab) :
    ∀ j i, i ≤ j → (tr i).task.attempts ≤ (tr j).task.attempts := by
  intro j
  induction j with
  | zero =>
    intro i hij
    obtain rfl := Nat.le_zero.mp hij
    exact Nat.le_refl _
  | succ j ih =>
    intro i hij
    rcases Nat.lt_or_ge i (j + 1) with hlt | hge
    · exact Nat.le_trans (ih i (Nat.lt_succ_iff.mp hlt))
        (attempts_mono_step (hrun j))
    · obtain rfl : i = j + 1 := Nat.le_antisymm hij hge
      exact Nat.le_refl _

theorem terminal_absorbing_run {leaseDur ceiling : Nat} {backoff : Nat → Nat}
    {tr : Nat → OutboxState} {lab : Nat → Option OLabel}
    (hrun : IsRun leaseDur ceiling backoff tr lab) :
    ∀ j i, i ≤ j → terminal (tr i).task.state = true →
      (tr j).task = (tr i).task := by
  intro j
  induction j with
  | zero =>
    intro i hij _
    obtain rfl := Nat.le_zero.mp hij
    rfl
  | succ j ih =>
    intro i hij hterm
    rcases Nat.lt_or_ge i (j + 1) with hlt | hge
    · have htask := ih i (Nat.lt_succ_iff.mp hlt) hterm
      have hterm2 : terminal (tr j).task.state = true := by
        rw [htask]
        exact hterm
      rw [terminal_absorbing hterm2 (hrun j), htask]
    · obtain rfl : i = j + 1 := Nat.le_antisymm hij hge
      rfl

theorem success_terminalizes {leaseDur ceiling : Nat} {backoff : Nat → Nat}
    {tr : Nat → OutboxState} {lab : Nat → Option OLabel}
    (hrun : IsRun leaseDur ceiling backoff tr lab)
    {i w tok : Nat} (hlab : lab i = some (.completeSuccess w tok)) :
    (tr (i + 1)).task.state = .sent := by
  have hstep := hrun i
  rw [hlab] at hstep
  rw [(success_inversion hstep).2.2.2]

theorem success_after_success_impossible {leaseDur ceiling : Nat}
    {backoff : Nat → Nat} {tr : Nat → OutboxState} {lab : Nat → Option OLabel}
    (hrun : IsRun leaseDur ceiling backoff tr lab)
    {i j w tok w2 tok2 : Nat} (hij : i < j)
    (hi : lab i = some (.completeSuccess w tok))
    (hj : lab j = some (.completeSuccess w2 tok2)) : False := by
  have hsent : (tr (i + 1)).task.state = .sent := success_terminalizes hrun hi
  have hterm : terminal (tr (i + 1)).task.state = true := by
    rw [hsent]
    rfl
  have habs := terminal_absorbing_run hrun j (i + 1) hij hterm
  have hstepj := hrun j
  rw [hj] at hstepj
  have hleased := (success_inversion hstepj).1
  rw [habs, hsent] at hleased
  exact TaskState.noConfusion hleased

theorem eventually_terminal_aux {leaseDur ceiling : Nat} {backoff : Nat → Nat}
    {tr : Nat → OutboxState} {lab : Nat → Option OLabel}
    (hrun : IsRun leaseDur ceiling backoff tr lab)
    (hinv : ∀ n, InvT ceiling (tr n)) (hprog : Progress tr) :
    ∀ (k i : Nat), terminal (tr i).task.state = false →
      ceiling + 1 - (tr i).task.attempts ≤ k →
      ∃ m, terminal (tr m).task.state = true := by
  intro k
  induction k with
  | zero =>
    intro i hterm hk
    have hle := (hinv i).1 hterm
    omega
  | succ k ih =>
    intro i hterm hk
    obtain ⟨j, hij, hpro⟩ := hprog i hterm
    rcases hpro with hterm2 | hatt
    · exact ⟨j + 1, hterm2⟩
    · rcases Bool.eq_false_or_eq_true (terminal (tr (j + 1)).task.state) with
        ht2 | ht2
      · exact ⟨j + 1, ht2⟩
      · apply ih (j + 1) ht2
        have hmono := attempts_mono_run hrun j i hij
        have hle := (hinv i).1 hterm
        omega

/-- Claim C5: for one DeliveryTask under any number of concurrent workers:
the optimistic claim only ever takes a pending available task or an
abandoned (expired) lease and installs a fresh deadline, and a held lock
always carries a lease deadline; a completeSuccess can only be performed
by the worker holding the current lease and token, and no run marks the
task sent twice (in particular never by two different workers); and under
the progress hypothesis (workers keep claiming and completing, retries
bounded by the ceiling) a non-terminal task eventually reaches a terminal
state. -/
theorem outbox_safety_and_liveness
    (leaseDur ceiling : Nat) (backoff : Nat → Nat)
    (tr : Nat → OutboxState) (lab : Nat → Option OLabel) (a0 : Nat)
    (hrun : IsRun leaseDur ceiling backoff tr lab)
    (hinit : (tr 0).task = initTask a0) :
    ((∀ i w, lab i = some (.claim w) →
        ((tr i).task.state = .leased →
          ∃ u, (tr i).task.lockedUntil = some u ∧ u ≤ (tr i).now) ∧
        (tr (i + 1)).task.lockedBy = some w ∧
        (tr (i + 1)).task.lockedUntil = some ((tr i).now + leaseDur)) ∧
      (∀ i, (tr i).task.lockedBy.isSome → (tr i).task.lockedUntil.isSome)) ∧
    ((∀ i w tok, lab i = some (.completeSuccess w tok) →
        (tr i).task.state = .leased ∧
        (tr i).task.lockedBy = some w ∧ (tr i).task.leaseToken = tok ∧
        (tr (i + 1)).task.sentBy = some w) ∧
      (∀ i j w tok w2 tok2,
        lab i = some (.completeSuccess w tok) →
        lab j = some (.completeSuccess w2 tok2) → i = j)) ∧
    (Progress tr → ∀ i0, terminal (tr i0).task.state = false →
      ∃ m, terminal (tr m).task.state = true) := by
  have hinv0 : InvT ceiling (tr 0) := by
    constructor
    · intro _
      rw [hinit]
      exact Nat.zero_le _
    · intro hl
      rw [hinit] at hl
      simp [initTask] at hl
  have hinv := invT_run hrun hinv0
  refine ⟨⟨?_, fun i => (hinv i).2⟩, ⟨?_, ?_⟩, ?_⟩
  · intro i w hlab
    have hstep := hrun i
    rw [hlab] at hstep
    obtain ⟨hg, hs2⟩ := claim_inversion hstep
    refine ⟨?_, ?_, ?_⟩
    · intro hleased
      rcases hg with ⟨h1, _⟩ | ⟨_, h2⟩
      · rw [h1] at hleased
        exact TaskState.noConfusion hleased
      · exact h2
    · rw [hs2]
    · rw [hs2]
  · intro i w tok hlab
    have hstep := hrun i
    rw [hlab] at hstep
    obtain ⟨h1, h2, h3, h4⟩ := success_inversion hstep
    refine ⟨h1, h2, h3, ?_⟩
    rw [h4]
  · intro i j w tok w2 tok2 hi hj
    rcases Nat.lt_trichotomy i j with hij | hij | hij
    · exact absurd (success_after_success_impossible hrun hij hi hj) id
    · exact hij
    · exact absurd (success_after_success_impossible hrun hij hj hi) id
  · intro hprog i0 hterm
    exact eventually_terminal_aux hrun hinv hprog
      (ceiling + 1 - (tr i0).task.attempts) i0 hterm (Nat.le_refl _)

/-- Witness for C5: a concrete run in which worker 3 claims the fresh task
and delivers it successfully, after which the task rests in sent. -/
theorem outbox_safety_and_liveness_witness :
    (IsRun 5 3 (fun n => n) demoRun demoLab ∧
      (demoRun 0).task = initTask 0) ∧
    (((∀ i w, demoLab i = some (.claim w) →
        ((demoRun i).task.state = .leased →
          ∃ u, (demoRun i).task.lockedUntil = some u ∧ u ≤ (demoRun i).now) ∧
        (demoRun (i + 1)).task.lockedBy = some w ∧
        (demoRun (i + 1)).task.lockedUntil =
          some ((demoRun i).now + 5)) ∧
      (∀ i, (demoRun i).task.lockedBy.isSome →
        (demoRun i).task.lockedUntil.isSome)) ∧
    ((∀ i w tok, demoLab i = some (.completeSuccess w tok) →
        (demoRun i).task.state = .leased ∧
        (demoRun i).task.lockedBy = some w ∧
        (demoRun i).task.leaseToken = tok ∧
        (demoRun (i + 1)).task.sentBy = some w) ∧
      (∀ i j w tok w2 tok2,
        demoLab i = some (.completeSuccess w tok) →
        demoLab j = some (.completeSuccess w2 tok2) → i = j)) ∧
    (Progress demoRun → ∀ i0, terminal (demoRun i0).task.state = false →
      ∃ m, terminal (demoRun m).task.state = true)) := by
  have hrun : IsRun 5 3 (fun n => n) demoRun demoLab := by
    intro i
    match i with
    | 0 =>
      show OStep 5 3 (fun n => n) (.claim 3) demoS0 demoS1
      exact OStep.claim demoS0 3 (Or.inl ⟨rfl, Nat.le_refl 0⟩)
    | 1 =>
      show OStep 5 3 (fun n => n) (.completeSuccess 3 1) demoS1 demoS2
      exact OStep.completeSuccess demoS1 3 1 rfl rfl rfl
    | n + 2 =>
      show demoRun (n + 3) = demoRun (n + 2)
      rfl
  exact ⟨⟨hrun, rfl⟩,
    outbox_safety_and_liveness 5 3 (fun n => n) demoRun demoLab 0 hrun rfl⟩

end Outbox

end TaskManager
